import Mathlib

/-!
Verification development for the `ensmallen_graph` in-memory graph engine.

The Rust sources mix two generations of the `Graph` data layout:

* an older layout (`graph.rs`) with explicit `sources` / `destinations`
  vectors, a cumulative `outbounds` vector and a `unique_edges` hash map, and
* a newer layout (`holdouts.rs`, `constructors.rs`) storing every directed
  edge occurrence as a single monotone-encoded key
  `(src << node_bits) | dst` inside an Elias-Fano set.

This file shallow-embeds both: the single `Graph` structure below carries the
fields each embedded function reads.  Functions present in the source tree are
translated directly from it; pieces of the project that are referenced but not
shipped in the tree (the edge codec, the Elias-Fano rank primitives, the
vocabulary, the spanning forest, the `Graph::new` assembly) are modelled from
the specification and marked `Modelled from the spec:` in their doc comments.

Rust `Result<_, String>` is modelled as `Except Failure _` with `Failure.err`;
Rust panics (index out of bounds, `unwrap` on `None`, explicit `panic!`) are
modelled as `Failure.panicked`, which also short-circuits, mirroring unwinding.
Machine integers (`u64` edge ids, `u32` node ids) are modelled as `ℕ`; the
only place overflow could matter in the embedded fragments is noted inline.
`f32` edge weights are modelled as `ℚ` (no arithmetic is performed on them in
the embedded fragments, they are validated for positivity and carried along).
-/

namespace Ensmallen

/-- Failure channel: `err` models `Result::Err`, `panicked` models a Rust
panic (which unwinds past any `?`). -/
inductive Failure where
  | err (msg : String) : Failure
  | panicked (msg : String) : Failure
deriving DecidableEq, Repr

/-- Shorthand for the fallible computations of the embedding. -/
abbrev Res (α : Type) : Type := Except Failure α

/-- Rust indexing `v[i]`, which panics when out of bounds. -/
def indexP {α : Type} (l : List α) (i : ℕ) : Res α :=
  match l.get? i with
  | some v => Except.ok v
  | none => Except.error (Failure.panicked "index out of bounds")

/-! ## Edge codec

Modelled from the spec (§4.3), the codec itself not being shipped in the
source tree: `node_bits = ceil(log2(max(N,2)))`,
`encode(src,dst) = (src << node_bits) | dst`,
`decode(key) = (key >> node_bits, key & node_bit_mask)` with
`node_bit_mask = (1 << node_bits) - 1`. -/

/-- Ceiling base-2 logarithm by halving; the first argument is a fuel that
bounds the recursion depth (any fuel at least `m` is enough).  Keeping the
recursion structural lets every concrete key computation reduce. -/
def clog2_fuel : ℕ → ℕ → ℕ
  | 0, _ => 0
  | fuel + 1, m => if m ≤ 1 then 0 else clog2_fuel fuel ((m + 1) / 2) + 1

/-- Number of bits reserved for the destination node inside an edge key:
`ceil(log2(max(N, 2)))` (the equality with `Nat.clog` is proved below). -/
def get_node_bits (nodes_number : ℕ) : ℕ :=
  clog2_fuel (max nodes_number 2) (max nodes_number 2)

/-- The low-bits mask `(1 << node_bits) - 1`. -/
def node_bit_mask (node_bits : ℕ) : ℕ := 2 ^ node_bits - 1

/-- `encode(src,dst) = (src << node_bits) | dst`. -/
def encode_edge (src dst node_bits : ℕ) : ℕ := (src <<< node_bits) ||| dst

/-- `decode(key) = (key >> node_bits, key & node_bit_mask)`. -/
def decode_edge (key node_bits : ℕ) : ℕ × ℕ :=
  (key >>> node_bits, key &&& node_bit_mask node_bits)

/-- Upper bound of the key universe, `encode(N-1, N-1) + 1`. -/
def encode_max_edge (nodes_number node_bits : ℕ) : ℕ :=
  encode_edge (nodes_number - 1) (nodes_number - 1) node_bits + 1

/-! ## Elias-Fano rank primitives

Modelled from the spec (§4.4), the succinct set implementation being an
external crate: `rank(x)` is the number of stored elements strictly below
`x`; the checked variant returns `None` when `x` is not a member.  The edge
keys are stored in push order, which the constructor keeps non-decreasing. -/

/-- `unchecked_rank`: number of stored elements strictly below `x`. -/
def ef_unchecked_rank (l : List ℕ) (x : ℕ) : ℕ := l.countP (fun y => y < x)

/-- Checked `rank`: position of `x` when present, `None` otherwise. -/
def ef_rank (l : List ℕ) (x : ℕ) : Option ℕ :=
  if x ∈ l then some (ef_unchecked_rank l x) else none

/-! ## The graph model

One structure carrying the fields of both source layouts (see the module
comment).  `nodes` is the id-to-name side of the node vocabulary (§4.1). -/

/-- Per-pair metadata of the older layout's `unique_edges` hash map. -/
structure EdgeMetadata where
  edge_id : ℕ
  edge_types : Option (List ℕ)
deriving DecidableEq, Repr

structure Graph where
  is_directed : Bool
  /-- Node vocabulary, id to name (spec §4.1). -/
  nodes : List String
  sources : List ℕ
  destinations : List ℕ
  /-- Cumulative outbound-edge counts, `outbounds[u] = |{e : src(e) ≤ u}|`. -/
  outbounds : List ℕ
  weights : Option (List ℚ) := none
  node_types : Option (List ℕ) := none
  edge_types : Option (List ℕ) := none
  unique_edges : List ((ℕ × ℕ) × EdgeMetadata) := []
  not_trap_nodes : List ℕ := []
deriving DecidableEq, Repr

namespace Graph

def get_nodes_number (g : Graph) : ℕ := g.nodes.length

def get_edges_number (g : Graph) : ℕ := g.sources.length

/-- The stored directed edge occurrences, in storage order. -/
def edgesList (g : Graph) : List (ℕ × ℕ) := g.sources.zip g.destinations

/-- `has_selfloops()` reads a cached counter; by construction it is set iff
some stored edge is a selfloop. -/
def has_selfloops (g : Graph) : Bool := g.edgesList.any (fun e => e.1 == e.2)

/-- `unique_edges_number` scalar cache: number of distinct stored pairs,
i.e. the size of the older layout's `unique_edges` map. -/
def unique_edges_number (g : Graph) : ℕ := g.unique_edges.length

def node_bits (g : Graph) : ℕ := get_node_bits g.get_nodes_number

def encodeG (g : Graph) (src dst : ℕ) : ℕ := encode_edge src dst g.node_bits

def decodeG (g : Graph) (key : ℕ) : ℕ × ℕ := decode_edge key g.node_bits

/-- Newer-layout `has_edge(src, dst, None)`:
membership of the encoded key, i.e. of the pair among stored edges. -/
def has_edge (g : Graph) (src dst : ℕ) : Bool := g.edgesList.contains (src, dst)

def has_edge_types (g : Graph) : Bool := g.edge_types.isSome

def has_node_types (g : Graph) : Bool := g.node_types.isSome

def has_weights (g : Graph) : Bool := g.weights.isSome

/-- `graph.rs::get_node_type_id` (lines 48-63): note the non-strict guard
`node_id <= nt.ids.len()`. -/
def get_node_type_id (g : Graph) (node_id : ℕ) : Res ℕ :=
  match g.node_types with
  | some ids =>
    if node_id ≤ ids.length then
      indexP ids node_id
    else
      Except.error (Failure.err "The node_index is too big for the node_types vector")
  | none => Except.error (Failure.err "Node types are not defined for current graph instance.")

/-- `graph.rs::get_min_max_edge` (lines 354-362).  The source indexes
`outbounds` directly and would panic out of range; the embedded `getD`
is only used at indices below `outbounds.length` in every theorem. -/
def get_min_max_edge (g : Graph) (node : ℕ) : ℕ × ℕ :=
  (if node = 0 then 0 else g.outbounds.getD (node - 1) 0, g.outbounds.getD node 0)

/-- `graph.rs::degree` (lines 383-386). -/
def degree (g : Graph) (node : ℕ) : ℕ :=
  (g.get_min_max_edge node).2 - (g.get_min_max_edge node).1

/-- `graph.rs::is_node_trap` (lines 478-480). -/
def is_node_trap (g : Graph) (node : ℕ) : Bool := g.degree node == 0

end Graph

/-- Helper for itertools `unique()`: keep elements not seen before. -/
def uniqueKeepFirstAux (seen : List ℕ) : List ℕ → List ℕ
  | [] => []
  | a :: l =>
    if seen.contains a then uniqueKeepFirstAux seen l
    else a :: uniqueKeepFirstAux (a :: seen) l

/-- Itertools `unique()`: drop duplicates keeping the first occurrence. -/
def uniqueKeepFirst (l : List ℕ) : List ℕ := uniqueKeepFirstAux [] l

/-- `graph.rs::get_dense_nodes_mapping` (lines 364-374): chain sources and
destinations, keep first occurrences, enumerate, and collect `(node, index)`
pairs (the hash map is modelled as the association list, whose keys are
unique by construction). -/
def Graph.get_dense_nodes_mapping (g : Graph) : List (ℕ × ℕ) :=
  ((uniqueKeepFirst (g.sources ++ g.destinations)).enum).map (fun p => (p.2, p.1))

/-- Key lookup in the older layout's `unique_edges` hash map. -/
def uniqueEdgesLookup (g : Graph) (p : ℕ × ℕ) : Option EdgeMetadata :=
  (g.unique_edges.find? (fun kv => kv.1 == p)).map (fun kv => kv.2)

/-- `graph.rs::check_edge_overlap` (lines 239-247); `et.unwrap()` panics when
the probing edge carries no type while the metadata lists types. -/
def Graph.check_edge_overlap (g : Graph) (src dst : ℕ) (et : Option ℕ) : Res Bool :=
  match uniqueEdgesLookup g (src, dst) with
  | some metadata =>
    match metadata.edge_types with
    | some ets =>
      match et with
      | some t => Except.ok (ets.contains t)
      | none => Except.error (Failure.panicked "called unwrap on a None value")
    | none => Except.ok true
  | none => Except.ok false

/-- The error message `overlaps` and `contains` raise on an edge-types
mismatch. -/
def edgeTypesMismatchMsg : String :=
  "One of the graph has edge types while the other has not. This is an undefined behaviour."

/-- `graph.rs::overlaps` (lines 255-284). -/
def Graph.overlaps (self other : Graph) : Res Bool :=
  if self.has_edge_types != other.has_edge_types then
    Except.error (Failure.err edgeTypesMismatchMsg)
  else do
    let checks ← other.edgesList.enum.mapM (fun p => do
      let et ← match other.edge_types with
        | some ids =>
          if ids.isEmpty then Except.ok (none : Option ℕ)
          else (indexP ids p.1).map some
        | none => Except.ok none
      self.check_edge_overlap p.2.1 p.2.2 et)
    Except.ok (checks.any id)

/-! ## Negative sampling (`holdouts.rs::sample_negatives`, lines 30-172) -/

/-- Lines 46-48: the seed-node bitmap, mapping every node name of the seed
graph through `get_unchecked_node_id` of the parent, which unwraps a
vocabulary lookup and hence panics on a name the parent does not know. -/
def seedNodeIds (self sg : Graph) : Res (Finset ℕ) := do
  let ids ← sg.nodes.mapM (fun node_name =>
    match self.nodes.findIdx? (fun n => n == node_name) with
    | some i => Except.ok i
    | none => Except.error (Failure.panicked "called unwrap on a None value"))
  Except.ok ids.toFinset

/-- Line 103: `max!(4096, negatives_number / 100)`. -/
def chunk_size (negatives_number : ℕ) : ℕ := max 4096 (negatives_number / 100)

/-- Lines 125-149: turn one raw `u64` sample into the encoded keys it
contributes: decode, reduce both endpoints modulo the node count, reject on
the seed filter, the selfloop policy and existing edges, and mirror accepted
non-selfloops for undirected parents.  (The modulo is never taken with zero
nodes: with no nodes the request fails before sampling.) -/
def Graph.candidate_keys (g : Graph) (seed_nodes : Option (Finset ℕ)) (raw : ℕ) :
    List ℕ :=
  let src := (g.decodeG raw).1 % g.get_nodes_number
  let dst := (g.decodeG raw).2 % g.get_nodes_number
  let seedReject : Bool :=
    match seed_nodes with
    | some sn => !(decide (src ∈ sn)) && !(decide (dst ∈ sn))
    | none => false
  if seedReject then []
  else if (g.has_selfloops || src != dst) && !(g.has_edge src dst) then
    if !g.is_directed && src != dst then
      [g.encodeG src dst, g.encodeG dst src]
    else
      [g.encodeG src dst]
  else []

/-- The rejection-sampling loop (lines 107-155).  The xorshift stream
(`rand_u64` and `gen_random_vec` come from the external `vec_rand` crate) is
abstracted by `oracle`: `oracle i` is the random vector drawn in iteration
`i`, of which the loop consumes the first `edges_to_sample` values; every
theorem below holds for every stream.  `fuel` bounds the number of loop
iterations of the model; `none` stands for a run that has not finished within
`fuel` iterations.  The `ceil((k - len) / 2.0)` of the source is modelled as
exact natural arithmetic `(k - len + 1) / 2`. -/
def sampleLoop (g : Graph) (negatives_number : ℕ) (seed_nodes : Option (Finset ℕ))
    (oracle : ℕ → List ℕ) : ℕ → ℕ → Finset ℕ → Option (Finset ℕ)
  | 0, _, bitmap => if negatives_number ≤ bitmap.card then some bitmap else none
  | fuel + 1, i, bitmap =>
    if negatives_number ≤ bitmap.card then some bitmap
    else
      sampleLoop g negatives_number seed_nodes oracle fuel (i + 1)
        (bitmap ∪ (((oracle i).take (min (chunk_size negatives_number)
          (if g.is_directed then negatives_number - bitmap.card
           else (negatives_number - bitmap.card + 1) / 2))).flatMap
          (g.candidate_keys seed_nodes)).toFinset)

/-- Marker message for a run exceeding the modelled fuel (the source loops
until the bitmap is full). -/
def sampleFuelMsg : String := "sampling loop did not finish within the modelled fuel"

/-- `holdouts.rs::sample_negatives` (lines 30-172).  The final
`Graph::build_graph` call is not shipped in this layout's source tree;
modelled from the spec (§4.5): it materializes exactly the provided sorted,
deduplicated edge stream, so the embedding returns the decoded edge list of
the final bitmap (iterated in increasing key order, as `RoaringTreemap::iter`
does; every inserted key is `encode(src, dst)` with both endpoints reduced
modulo the node count, hence lies below `N <<< node_bits`, and the ascending
iteration is the filter of that range).  `random_state` only seeds the
abstracted random stream. -/
def Graph.sample_negatives (g : Graph) (random_state negatives_number : ℕ)
    (seed_graph : Option Graph) (oracle : ℕ → List ℕ) (fuel : ℕ) :
    Res (List (ℕ × ℕ)) :=
  if negatives_number = 0 then
    Except.error (Failure.err "The number of negatives cannot be zero.")
  else do
    let seed_nodes : Option (Finset ℕ) ←
      match seed_graph with
      | some sg => do
        let ov ← g.overlaps sg
        if !ov then
          Except.error (Failure.err
            "The given seed graph does not overlap with the current graph instance.")
        else do
          let ids ← seedNodeIds g sg
          Except.ok (some ids)
      | none => Except.ok none
    let nodes_number := g.get_nodes_number
    -- `nodes_number * (nodes_number - 1)` in u64; the release-mode wrap of
    -- `0 - 1` is multiplied by zero again, so the ℕ value agrees for every N.
    let complete_edges_number :=
      nodes_number * (nodes_number - 1) + if g.has_selfloops then nodes_number else 0
    let max_negative_edges := complete_edges_number - g.unique_edges_number
    if negatives_number > max_negative_edges then
      Except.error (Failure.err
        "The requested negatives number is more than the number of negative edges that exist in the graph.")
    else
      match sampleLoop g negatives_number seed_nodes oracle fuel 0 ∅ with
      | none => Except.error (Failure.err sampleFuelMsg)
      | some bitmap =>
        Except.ok (((List.range (g.get_nodes_number <<< g.node_bits)).filter
          (fun key => decide (key ∈ bitmap))).map (fun key => g.decodeG key))

/-! ## Holdouts (`holdouts.rs::holdout` and `connected_holdout`) -/

/-- Triple of an edge id: source, destination and optional edge type, read
from the parallel arrays (the accessor itself is not shipped in the tree).
Out-of-range ids, never produced by the shuffled permutation of `0..E`,
default to endpoint 0. -/
def Graph.get_edge_triple (g : Graph) (edge_id : ℕ) : ℕ × ℕ × Option ℕ :=
  (g.sources.getD edge_id 0, g.destinations.getD edge_id 0,
    g.edge_types.bind (fun ids => ids.get? edge_id))

/-- `get_unchecked_edge_id(src, dst, edge_type)`: the id of the edge carrying
the given triple.  Not shipped in the tree; modelled from its uses
(`queries_unchecked.rs` scans the multigraph range of `(src, dst)` for the
matching type).  An absent triple is modelled by the out-of-range id `E`
(the source would panic there). -/
def Graph.get_unchecked_edge_id (g : Graph) (src dst : ℕ) (edge_type : Option ℕ) : ℕ :=
  ((List.range g.get_edges_number).find?
    (fun i => g.get_edge_triple i == (src, dst, edge_type))).getD g.get_edges_number

/-- Modelled from the spec (§4.8): with `include_all_edge_types` the ids of
all the edges between the two endpoints, otherwise just the given id. -/
def Graph.compute_edge_ids_vector (g : Graph) (edge_id src dst : ℕ)
    (include_all_edge_types : Bool) : List ℕ :=
  if include_all_edge_types then
    (List.range g.get_edges_number).filter
      (fun i => g.sources.getD i 0 == src && g.destinations.getD i 0 == dst)
  else [edge_id]

/-- The edge-selection loop of `holdouts.rs::holdout` (lines 237-276):
iterate the shuffled edge ids; skip backward representatives of undirected
edges; on an accepted edge extend the validation bitmap with the forward
(and, undirected, backward) companion ids; stop once the target is reached.
The `continue` of line 245 skips the stop check, as in the source. -/
def holdoutLoop (g : Graph) (include_all_edge_types : Bool)
    (user_condition : ℕ → ℕ → ℕ → Option ℕ → Res Bool) (valid_edges_number : ℕ) :
    List ℕ → Finset ℕ → Res (Finset ℕ)
  | [], bitmap => Except.ok bitmap
  | edge_id :: rest, bitmap =>
    let t := g.get_edge_triple edge_id
    let src := t.1
    let dst := t.2.1
    let edge_type := t.2.2
    if !g.is_directed && decide (dst < src) then
      holdoutLoop g include_all_edge_types user_condition valid_edges_number rest bitmap
    else do
      let c ← user_condition edge_id src dst edge_type
      let bitmap' :=
        if c then
          let fwd := (g.compute_edge_ids_vector edge_id src dst include_all_edge_types).toFinset
          let bwd :=
            if !g.is_directed then
              (g.compute_edge_ids_vector (g.get_unchecked_edge_id dst src edge_type)
                dst src include_all_edge_types).toFinset
            else ∅
          bitmap ∪ fwd ∪ bwd
        else bitmap
      if valid_edges_number ≤ bitmap'.card then Except.ok bitmap'
      else holdoutLoop g include_all_edge_types user_condition valid_edges_number rest bitmap'

/-- `holdouts.rs::holdout` (lines 212-351), reduced to the ids of the
training and validation edges.  `edge_indices` abstracts the `SmallRng`
shuffle of `0..E` (external `rand` crate); `valid_edges_number` abstracts the
f64 train-size arithmetic of `get_holdouts_edges_number` (lines 174-210),
which only gates success.  The two final `build_graph` calls materialize
exactly the selected quadruples (spec §4.5): the training graph takes the ids
outside the bitmap in increasing order, the validation graph the bitmap. -/
def Graph.holdout (g : Graph) (edge_indices : List ℕ) (valid_edges_number : ℕ)
    (include_all_edge_types : Bool)
    (user_condition : ℕ → ℕ → ℕ → Option ℕ → Res Bool) :
    Res (List ℕ × List ℕ) := do
  let bitmap ← holdoutLoop g include_all_edge_types user_condition valid_edges_number
    edge_indices ∅
  if bitmap.card < valid_edges_number then
    Except.error (Failure.err
      "With the given configuration for the holdout, it is not possible to generate a validation set of the requested size.")
  else
    Except.ok ((List.range g.get_edges_number).filter (fun e => !(decide (e ∈ bitmap))),
      (List.range g.get_edges_number).filter (fun e => decide (e ∈ bitmap)))

/-- The condition `connected_holdout` passes to `holdout` (lines 439-448):
the edge must not belong to the spanning forest and, when an edge-type filter
is given, `edge_type.unwrap()` must belong to it (the unwrap panics on a
typeless edge; it is short-circuited away for forest edges). -/
def connectedCondition (tree : Finset ℕ) (edge_type_ids : Option (Finset ℕ)) :
    ℕ → ℕ → ℕ → Option ℕ → Res Bool := fun edge_id _ _ edge_type =>
  if edge_id ∈ tree then Except.ok false
  else
    match edge_type_ids with
    | some etis =>
      match edge_type with
      | some t => Except.ok (decide (t ∈ etis))
      | none => Except.error (Failure.panicked "called unwrap on a None value")
    | none => Except.ok true

/-- `holdouts.rs::connected_holdout` (lines 375-452).  The random spanning
forest (`spanning_tree`) is not shipped in the tree; modelled from the spec
(§4.8) as a set `tree` of edge ids handed in by the caller.
`train_edges_number` and `valid_edges_number` abstract the f64 arithmetic of
lines 405-414, which only gates success. -/
def Graph.connected_holdout_ids (g : Graph) (tree : Finset ℕ)
    (edge_type_ids : Option (Finset ℕ)) (include_all_edge_types : Bool)
    (edge_indices : List ℕ) (train_edges_number valid_edges_number : ℕ) :
    Res (List ℕ × List ℕ) :=
  let edge_factor := if g.is_directed then 1 else 2
  if train_edges_number < tree.card * edge_factor then
    Except.error (Failure.err
      "The given spanning tree of the graph contains more edges than the required training edges number.")
  else
    g.holdout edge_indices valid_edges_number include_all_edge_types
      (connectedCondition tree edge_type_ids)

/-! ## Batch generators (`preprocessing.rs`) -/

/-- `preprocessing.rs::word2vec` (lines 38-64): for every walk, panic when it
is shorter than `window_size * 2 + 1`, otherwise emit one
`(context, central)` pair per interior position.  The indexing `sequence[j]`
is always in range for the emitted positions. -/
def word2vecPanicMsg : String :=
  "Cannot compute word2vec, the sequence length is below the minimum required by the window size."

/-- The per-sequence body of the `flat_map_iter` closure of `word2vec`. -/
def word2vec_sequence (window_size : ℕ) (sequence : List ℕ) :
    Res (List (List ℕ × ℕ)) :=
  let sequence_length := sequence.length
  if sequence_length < window_size * 2 + 1 then
    Except.error (Failure.panicked word2vecPanicMsg)
  else
    Except.ok ((List.range' window_size (sequence_length - 2 * window_size)).map
      (fun i =>
        ((List.range' (i - window_size) window_size
            ++ List.range' (i + 1) window_size).map (fun j => sequence.getD j 0),
          sequence.getD i 0)))

def word2vec (sequences : List (List ℕ)) (window_size : ℕ) :
    Res (List (List ℕ × ℕ)) := do
  let batches ← sequences.mapM (word2vec_sequence window_size)
  Except.ok batches.flatten

/-- `preprocessing.rs::fast_u32_modulo` (lines 19-21): the Lemire reduction
`(val * n) >> 32`, a surrogate for `val % n` when `val < 2^32`. -/
def fast_u32_modulo (val n : ℕ) : ℕ := (val * n) >>> 32

/-- The negative-sampling branch of `preprocessing.rs::link_prediction_ids`
(lines 396-428): split the sampled `u64` into two `u32`, reduce them modulo
the node count, retry on a false negative, an edge of `graph_to_avoid` or a
disallowed selfloop, and `panic!` once `maximal_sampling_attempts` attempts
are exhausted.  `xorshift` (external `vec_rand` crate) is abstracted by
`step`; the theorems hold for every re-sampling function. -/
def lpAttemptsPanicMsg : String :=
  "Executed more than the maximal number of attempts to sample a negative edge."

def link_prediction_negative_sample (g : Graph) (graph_to_avoid : Option Graph)
    (avoid_false_negatives : Bool) (index : ℕ) (step : ℕ → ℕ) :
    ℕ → ℕ → Res (ℕ × ℕ × ℕ × Bool)
  | 0, _ => Except.error (Failure.panicked lpAttemptsPanicMsg)
  | attempts + 1, sampled =>
    let src := fast_u32_modulo (sampled % 2 ^ 32) g.get_nodes_number
    let dst := fast_u32_modulo (sampled / 2 ^ 32) g.get_nodes_number
    if avoid_false_negatives && g.has_edge src dst then
      link_prediction_negative_sample g graph_to_avoid avoid_false_negatives index step
        attempts (step sampled)
    else if (match graph_to_avoid with
             | some ga => ga.has_edge src dst
             | none => false) then
      link_prediction_negative_sample g graph_to_avoid avoid_false_negatives index step
        attempts (step sampled)
    else if !g.has_selfloops && src == dst then
      link_prediction_negative_sample g graph_to_avoid avoid_false_negatives index step
        attempts (step sampled)
    else
      Except.ok (index, src, dst, false)

/-! ## The edge-stream constructor (`constructors.rs::build_edges`, lines 425-765) -/

/-- Integer quadruple `(src, dst, optional edge type id, optional weight)`. -/
abbrev Quadruple : Type := ℕ × ℕ × Option ℕ × Option ℚ

/-- The flag arguments of `build_edges` (the `edges_number` argument of the
source is only a capacity hint for the Elias-Fano allocation and is dropped
here). -/
structure BuildParams where
  nodes_number : ℕ
  ignore_duplicated_edges : Bool
  has_edge_weights : Bool
  has_edge_types : Bool
  might_have_singletons : Bool
  might_have_singletons_with_selfloops : Bool
  might_have_trap_nodes : Bool
  directed : Bool
  edge_list_is_correct : Bool
deriving DecidableEq, Repr

/-- The mutable state of the `build_edges` loop (lines 455-537). -/
structure BuildState where
  edges : List ℕ
  edge_type_ids : Option (List (Option ℕ))
  weights : Option (List ℚ)
  unique_sources : Option (List ℕ)
  not_singleton_nodes : Option (List Bool)
  singleton_nodes_with_selfloops : Option (Finset ℕ)
  last_src : ℕ
  last_dst : ℕ
  last_edge_type : Option ℕ
  unique_edges_number : ℕ
  unique_selfloop_number : ℕ
  selfloop_number : ℕ
  forward_undirected_edges_counter : ℕ
  backward_undirected_edges_counter : ℕ
  not_singleton_node_number : ℕ
  first : Bool
deriving DecidableEq

/-- Initial state of the loop (lines 455-537). -/
def initBuildState (p : BuildParams) : BuildState :=
  { edges := []
    edge_type_ids := if p.has_edge_types then some [] else none
    weights := if p.has_edge_weights then some [] else none
    unique_sources :=
      if p.directed && (p.might_have_trap_nodes || p.might_have_singletons) then some []
      else none
    not_singleton_nodes :=
      if (p.might_have_singletons || p.might_have_singletons_with_selfloops)
          && decide (0 < p.nodes_number) then
        some (List.replicate p.nodes_number false)
      else none
    singleton_nodes_with_selfloops :=
      if p.might_have_singletons_with_selfloops then some ∅ else none
    last_src := 0
    last_dst := 0
    last_edge_type := none
    unique_edges_number := 0
    unique_selfloop_number := 0
    selfloop_number := 0
    forward_undirected_edges_counter := 0
    backward_undirected_edges_counter := 0
    not_singleton_node_number :=
      if p.might_have_singletons || p.might_have_singletons_with_selfloops then 0
      else p.nodes_number
    first := true }

/-- Modelled from the spec (§7, BadWeight): a weight must be positive and
finite; finiteness is vacuous in the ℚ model. -/
def validate_weight (w : ℚ) : Res Unit :=
  if w ≤ 0 then Except.error (Failure.err "The weight is non positive.") else Except.ok ()

/-- The weight arm of the loop (lines 556-575). -/
def weightStep (st : BuildState) (weight : Option ℚ) : Res BuildState :=
  match st.weights, weight with
  | some ws, some w => do
    validate_weight w
    Except.ok { st with weights := some (ws ++ [w]) }
  | none, some _ =>
    Except.error (Failure.err
      "A non-None weight was provided but no weights are expected because the has_edge_weights flag has been set to false.")
  | some _, none =>
    Except.error (Failure.err "A None weight was found.")
  | none, none => Except.ok st

/-- The in-loop error for a backward edge whose forward twin is missing
(lines 603-611). -/
def undirectedMissingReverseMsg : String :=
  "You are trying to load an undirected graph using the directed edge list parameter that requires for ALL edges to be fully defined in both directions."

/-- The reverse-edge lookup for a backward edge `(src, dst)` with `src > dst`
(lines 582-592): rank of the encoded `(dst, src)` key among the already
pushed edges, refined to the matching edge type over the multigraph range
when edge types are tracked. -/
def reverseLookup (node_bits : ℕ) (st : BuildState) (src dst : ℕ)
    (edge_type : Option ℕ) : Option ℕ :=
  (ef_rank st.edges (encode_edge dst src node_bits)).bind (fun min_edge_id =>
    match st.edge_type_ids with
    | some ets =>
      (List.range' min_edge_id
        (ef_unchecked_rank st.edges (encode_edge dst (src + 1) node_bits) - min_edge_id)).find?
        (fun edge_id => ets.getD edge_id none == edge_type)
    | none => some min_edge_id)

/-- The undirected-consistency block of the loop (lines 577-618). -/
def undirectedCheckStep (p : BuildParams) (node_bits : ℕ) (st : BuildState)
    (src dst : ℕ) (edge_type : Option ℕ) : Res BuildState :=
  if !p.directed && !p.edge_list_is_correct then
    match compare src dst with
    | Ordering.gt =>
      if (reverseLookup node_bits st src dst edge_type).isNone then
        Except.error (Failure.err undirectedMissingReverseMsg)
      else
        Except.ok { st with
          backward_undirected_edges_counter := st.backward_undirected_edges_counter + 1 }
    | Ordering.lt =>
      Except.ok { st with
        forward_undirected_edges_counter := st.forward_undirected_edges_counter + 1 }
    | Ordering.eq => Except.ok st
  else Except.ok st

/-- One endpoint of the singleton bookkeeping (lines 626-646); the returned
flag is the `break` that leaves the two-endpoint loop. -/
def updateNode (st : BuildState) (node : ℕ) (selfloop : Bool) : BuildState × Bool :=
  match st.not_singleton_nodes with
  | none => (st, false)
  | some nwe =>
    if nwe.getD node false then
      if !selfloop &&
          (match st.singleton_nodes_with_selfloops with
           | some bitmap => decide (node ∈ bitmap)
           | none => false) then
        ({ st with
            singleton_nodes_with_selfloops :=
              st.singleton_nodes_with_selfloops.map (fun b => b.erase node),
            not_singleton_node_number := st.not_singleton_node_number + 1 }, false)
      else (st, false)
    else
      let st' := { st with not_singleton_nodes := some (nwe.set node true) }
      if !selfloop || st.singleton_nodes_with_selfloops.isNone then
        ({ st' with not_singleton_node_number := st.not_singleton_node_number + 1 }, false)
      else
        ({ st' with
            singleton_nodes_with_selfloops :=
              st.singleton_nodes_with_selfloops.map (fun b => insert node b) }, true)

/-- The `for node in &[src, dst]` loop (lines 625-648), with its early
`break`. -/
def updateEndpoints (st : BuildState) (src dst : ℕ) (selfloop : Bool) : BuildState :=
  let r := updateNode st src selfloop
  if r.2 then r.1 else (updateNode r.1 dst selfloop).1

/-- The duplicate error of lines 548-550. -/
def duplicateEdgeMsg : String := "A duplicated edge was found while building the graph."

/-- Lines 553-555: record the edge type of the surviving edge. -/
def pushEdgeTypeStep (st : BuildState) (edge_type : Option ℕ) : BuildState :=
  match st.edge_type_ids with
  | some ets => { st with edge_type_ids := some (ets ++ [edge_type]) }
  | none => st

/-- The infallible tail of one loop iteration (lines 619-661): record the
edge type, push the encoded key, bump the selfloop and uniqueness counters,
run the singleton bookkeeping and remember the triple. -/
def buildStepTail (st : BuildState) (src dst : ℕ) (edge_type : Option ℕ)
    (node_bits : ℕ) (different_src different_dst selfloop : Bool) : BuildState :=
  let st := { st with
    last_edge_type := edge_type
    edges := st.edges ++ [encode_edge src dst node_bits] }
  let st := if selfloop then { st with selfloop_number := st.selfloop_number + 1 } else st
  let st :=
    if different_src || different_dst then
      let st := updateEndpoints st src dst selfloop
      let st := { st with unique_edges_number := st.unique_edges_number + 1 }
      let st :=
        if selfloop then { st with unique_selfloop_number := st.unique_selfloop_number + 1 }
        else st
      if different_src then
        { st with unique_sources := st.unique_sources.map (fun us => us ++ [src]) }
      else st
    else st
  { st with last_src := src, last_dst := dst, first := false }

/-- One iteration of the `build_edges` loop (lines 539-662), in source
order: duplicate policy, edge-type push, weight arm, undirected consistency,
key push, selfloop and uniqueness counters, singleton bookkeeping. -/
def buildStep (p : BuildParams) (node_bits : ℕ) (st : BuildState) (q : Quadruple) :
    Res BuildState :=
  let src := q.1
  let dst := q.2.1
  let edge_type := q.2.2.1
  let weight := q.2.2.2
  let different_src := st.last_src != src || st.first
  let different_dst := st.last_dst != dst || st.first
  let selfloop := src == dst
  let different_edge_type := st.last_edge_type != edge_type || st.first
  if !(different_src || different_dst || different_edge_type) then
    if p.ignore_duplicated_edges then Except.ok st
    else Except.error (Failure.err duplicateEdgeMsg)
  else do
    let st := pushEdgeTypeStep st edge_type
    let st ← weightStep st weight
    let st ← undirectedCheckStep p node_bits st src dst edge_type
    Except.ok (buildStepTail st src dst edge_type node_bits different_src different_dst
      selfloop)

/-- The `for value in edges_iter` loop; an `Err` item propagates through the
`value?` of line 540. -/
def buildEdgesGo (p : BuildParams) (node_bits : ℕ) :
    BuildState → List (Except String Quadruple) → Res BuildState
  | st, [] => Except.ok st
  | st, item :: rest =>
    match item with
    | Except.error e => Except.error (Failure.err e)
    | Except.ok q => do
      let st' ← buildStep p node_bits st q
      buildEdgesGo p node_bits st' rest

/-- The value tuple `build_edges` returns (lines 750-764). -/
structure BuildResult where
  edges : List ℕ
  unique_sources : Option (List ℕ)
  edge_type_ids : Option (List (Option ℕ))
  weights : Option (List ℚ)
  unique_edges_number : ℕ
  selfloop_number : ℕ
  unique_selfloop_number : ℕ
  not_singleton_nodes_number : ℕ
  singleton_nodes_with_selfloops_number : ℕ
  node_bits : ℕ
  node_bit_mask : ℕ
  not_singleton_nodes : Option (List Bool)
  singleton_nodes_with_selfloops : Option (Finset ℕ)
deriving DecidableEq

/-- The end-of-stream error for mismatched direction counters
(lines 664-671). -/
def undirectedIncompleteMsg : String :=
  "You are trying to load an undirected graph from a directed edge list but the edge list is not complete."

/-- The post-loop checks and normalizations of `build_edges`
(lines 664-764). -/
def buildFinalize (p : BuildParams) (node_bits : ℕ) (st : BuildState) : Res BuildResult :=
  if st.forward_undirected_edges_counter != st.backward_undirected_edges_counter then
    Except.error (Failure.err undirectedIncompleteMsg)
  else do
    let weights ← match st.weights with
      | some ws =>
        if st.edges.length != ws.length then
          Except.error (Failure.panicked
            "The number of weights does not match the number of edges.")
        else if ws.isEmpty then Except.ok (none : Option (List ℚ))
        else Except.ok (some ws)
      | none => Except.ok none
    let edge_type_ids ← match st.edge_type_ids with
      | some ets =>
        if st.edges.length != ets.length then
          Except.error (Failure.panicked
            "The number of edge types does not match the number of edges.")
        else if ets.isEmpty then Except.ok (none : Option (List (Option ℕ)))
        else Except.ok (some ets)
      | none => Except.ok none
    if p.nodes_number < st.not_singleton_node_number then
      Except.error (Failure.panicked
        "The not singleton node number is bigger than the node number.")
    else
      let singleton_nodes_with_selfloops_number :=
        match st.singleton_nodes_with_selfloops with
        | some bitmap => bitmap.card
        | none => 0
      let unique_sources :=
        if p.nodes_number
            = st.not_singleton_node_number + singleton_nodes_with_selfloops_number then
          none
        else st.unique_sources
      let unique_sources :=
        if p.might_have_singletons && unique_sources.isNone
            && !(p.nodes_number
              == st.not_singleton_node_number + singleton_nodes_with_selfloops_number) then
          match st.not_singleton_nodes with
          | some nsns => some ((List.range p.nodes_number).filter (fun i => nsns.getD i false))
          | none => none
        else unique_sources
      if !p.directed &&
          (match unique_sources with
           | some x => decide (x.length < st.not_singleton_node_number)
           | none => false) then
        Except.error (Failure.panicked
          "The not singleton node number is bigger than the len of unique sources.")
      else
        Except.ok
          { edges := st.edges
            unique_sources := unique_sources
            edge_type_ids := edge_type_ids
            weights := weights
            unique_edges_number := st.unique_edges_number
            selfloop_number := st.selfloop_number
            unique_selfloop_number := st.unique_selfloop_number
            not_singleton_nodes_number := st.not_singleton_node_number
            singleton_nodes_with_selfloops_number := singleton_nodes_with_selfloops_number
            node_bits := node_bits
            node_bit_mask := node_bit_mask node_bits
            not_singleton_nodes := st.not_singleton_nodes
            singleton_nodes_with_selfloops := st.singleton_nodes_with_selfloops }

/-- `constructors.rs::build_edges` (lines 425-765). -/
def build_edges (p : BuildParams) (edges_iter : List (Except String Quadruple)) :
    Res BuildResult := do
  let node_bits := get_node_bits p.nodes_number
  let st ← buildEdgesGo p node_bits (initBuildState p) edges_iter
  buildFinalize p node_bits st

/-- The loop state considers `(src, dst, edge_type)` a duplicate when it
equals the previous surviving edge's triple (lines 541-545): all three
`different_*` flags are false and the edge is not the first. -/
def BuildDup (st : BuildState) (src dst : ℕ) (edge_type : Option ℕ) : Prop :=
  st.first = false ∧ st.last_src = src ∧ st.last_dst = dst ∧ st.last_edge_type = edge_type

/-! ## Construction pipeline (`constructors.rs::from_string_unsorted`) -/

/-- Modelled from the spec (§4.1): a bidirectional dictionary with
insertion-order ids (`names` is the id-to-name side) and a numeric-id
mode. -/
structure Vocabulary where
  names : List String
  numeric_ids : Bool
deriving DecidableEq, Repr

/-- `Vocabulary::default()`. -/
def Vocabulary.empty : Vocabulary := { names := [], numeric_ids := false }

def Vocabulary.set_numeric_ids (v : Vocabulary) (numeric : Bool) : Vocabulary :=
  { v with numeric_ids := numeric }

def Vocabulary.len (v : Vocabulary) : ℕ := v.names.length

def Vocabulary.is_empty (v : Vocabulary) : Bool := v.names.isEmpty

/-- Modelled from the spec (§4.1, `insert`): an empty name is InvalidInput;
in numeric mode the id is the parsed value (ParseFailure on a non-numeric
name); otherwise ids follow insertion order.  Returns the updated
vocabulary, the id and the `already_present` flag. -/
def Vocabulary.insert (v : Vocabulary) (name : String) : Res (Vocabulary × ℕ × Bool) :=
  if name = "" then
    Except.error (Failure.err "The provided name is empty.")
  else if v.numeric_ids then
    match name.toNat? with
    | some value =>
      if v.names.contains name then Except.ok (v, value, true)
      else Except.ok ({ v with names := v.names ++ [name] }, value, false)
    | none =>
      Except.error (Failure.err "The provided name cannot be parsed as an integer.")
  else
    match v.names.findIdx? (fun n => n == name) with
    | some i => Except.ok (v, i, true)
    | none => Except.ok ({ v with names := v.names ++ [name] }, v.names.length, false)

/-- Modelled from the spec (§4.1, `unchecked_insert`): no validation. -/
def Vocabulary.unchecked_insert (v : Vocabulary) (name : String) : Vocabulary × ℕ :=
  match v.names.findIdx? (fun n => n == name) with
  | some i => (v, i)
  | none => ({ v with names := v.names ++ [name] }, v.names.length)

/-- Modelled from the spec (§4.1, `build_reverse_mapping`): finalizes the
id-to-name array, which the list model keeps incrementally; the numeric-mode
gap check is not needed by any claim. -/
def Vocabulary.build_reverse_mapping (v : Vocabulary) : Res Vocabulary := Except.ok v

/-- Modelled from the spec (§4.2): a vocabulary with per-id counts and an
ordered per-element (multi-label) id list. -/
structure NodeTypeVocabulary where
  vocabulary : Vocabulary
  counts : List ℕ
  ids : List (Option (List ℕ))
deriving DecidableEq, Repr

def NodeTypeVocabulary.empty : NodeTypeVocabulary := ⟨Vocabulary.empty, [], []⟩

def NodeTypeVocabulary.set_numeric_ids (ntv : NodeTypeVocabulary) (numeric : Bool) :
    NodeTypeVocabulary :=
  { ntv with vocabulary := ntv.vocabulary.set_numeric_ids numeric }

def NodeTypeVocabulary.is_empty (ntv : NodeTypeVocabulary) : Bool :=
  ntv.vocabulary.is_empty

/-- Increment the per-type counter, growing the list as needed. -/
def bumpCount (counts : List ℕ) (tid : ℕ) : List ℕ :=
  let grown := counts ++ List.replicate (tid + 1 - counts.length) 0
  grown.set tid (grown.getD tid 0 + 1)

/-- Modelled from the spec (§4.2, `insert_values`): insert every label,
failing with Inconsistent when one element repeats a label; record the
ordered id list. -/
def NodeTypeVocabulary.insert_values (ntv : NodeTypeVocabulary)
    (labels : Option (List String)) : Res (NodeTypeVocabulary × Option (List ℕ)) :=
  match labels with
  | none => Except.ok ({ ntv with ids := ntv.ids ++ [none] }, none)
  | some ls =>
    if decide (¬ ls.Nodup) then
      Except.error (Failure.err "A node type was provided multiple times for the same node.")
    else do
      let r ← ls.foldlM (fun (acc : Vocabulary × List ℕ × List ℕ) label => do
        let (voc, tid, _) ← acc.1.insert label
        Except.ok (voc, acc.2.1 ++ [tid], bumpCount acc.2.2 tid)) (ntv.vocabulary, [], ntv.counts)
      Except.ok ({ vocabulary := r.1, counts := r.2.2, ids := ntv.ids ++ [some r.2.1] },
        some r.2.1)

/-- Modelled from the spec (§4.2): the unchecked twin of `insert_values`. -/
def NodeTypeVocabulary.unchecked_insert_values (ntv : NodeTypeVocabulary)
    (labels : Option (List String)) : NodeTypeVocabulary × Option (List ℕ) :=
  match labels with
  | none => ({ ntv with ids := ntv.ids ++ [none] }, none)
  | some ls =>
    let r := ls.foldl (fun (acc : Vocabulary × List ℕ × List ℕ) label =>
      let (voc, tid) := acc.1.unchecked_insert label
      (voc, acc.2.1 ++ [tid], bumpCount acc.2.2 tid)) (ntv.vocabulary, [], ntv.counts)
    ({ vocabulary := r.1, counts := r.2.2, ids := ntv.ids ++ [some r.2.1] }, some r.2.1)

/-- Modelled from the spec (§4.2): finalization succeeds on the list
model. -/
def NodeTypeVocabulary.build_reverse_mapping (ntv : NodeTypeVocabulary) :
    Res NodeTypeVocabulary := Except.ok ntv

/-- `constructors.rs::parse_nodes` (lines 767-813): ingest the optional node
list into the node vocabulary and, when requested, the node-type vocabulary.
The chained per-row iterators of `parse_node_ids` (lines 79-120) and
`parse_node_type_ids` (lines 138-161) are fused into one sequential pass,
which evaluates the same row-by-row order as the source's lazy chain. -/
def parse_nodes
    (nodes_iterator : Option (List (Except String (String × Option (List String)))))
    (ignore_duplicated_nodes node_list_is_correct numeric_node_ids
      numeric_node_types_ids numeric_edge_node_ids has_node_types : Bool) :
    Res (Vocabulary × Option NodeTypeVocabulary) := do
  let nodes := Vocabulary.empty.set_numeric_ids
    (numeric_node_ids || (numeric_edge_node_ids && nodes_iterator.isNone))
  match nodes_iterator with
  | none => Except.ok (nodes, none)
  | some ni =>
    let r ← ni.foldlM (fun (acc : Vocabulary × NodeTypeVocabulary) row => do
      match row with
      | Except.error e => Except.error (Failure.err e)
      | Except.ok (node_name, node_type) => do
        let idRow ←
          if node_list_is_correct then
            let (voc, _) := acc.1.unchecked_insert node_name
            Except.ok (some (voc, node_type))
          else do
            let (voc, _, already_present) ← acc.1.insert node_name
            if already_present then
              if ignore_duplicated_nodes then Except.ok none
              else
                Except.error (Failure.err "The node appears multiple times in the node list.")
            else Except.ok (some (voc, node_type))
        match idRow with
        | none => Except.ok acc
        | some (voc, node_type) =>
          if has_node_types then do
            let (ntv, _) ←
              if node_list_is_correct then
                Except.ok (acc.2.unchecked_insert_values node_type)
              else acc.2.insert_values node_type
            Except.ok (voc, ntv)
          else Except.ok (voc, acc.2))
      (nodes, NodeTypeVocabulary.empty.set_numeric_ids numeric_node_types_ids)
    if has_node_types then do
      let node_types ← r.2.build_reverse_mapping
      if node_types.is_empty then Except.ok (r.1, none)
      else Except.ok (r.1, some node_types)
    else Except.ok (r.1, none)

/-- String quadruple of an edge-list row. -/
abbrev StringQuadruple : Type := String × String × Option String × Option ℚ

/-- One row of `constructors.rs::parse_edges_node_ids` (lines 177-220):
resolve the two node names, rejecting names absent from a provided node
list. -/
def parse_edges_node_ids_step (empty_nodes_mapping edge_list_is_correct : Bool)
    (nodes : Vocabulary) (row : StringQuadruple) :
    Res (Vocabulary × (ℕ × ℕ × Option String × Option ℚ)) :=
  if edge_list_is_correct then
    let (nodes1, src) := nodes.unchecked_insert row.1
    let (nodes2, dst) := nodes1.unchecked_insert row.2.1
    Except.ok (nodes2, (src, dst, row.2.2.1, row.2.2.2))
  else do
    let (nodes1, source_node_id, source_was_present) ← nodes.insert row.1
    let (nodes2, destination_node_id, destination_was_present) ← nodes1.insert row.2.1
    if !empty_nodes_mapping && (!source_was_present || !destination_was_present) then
      Except.error (Failure.err
        "In the edge list was found an edge containing nodes that do not appear in the given node list.")
    else
      Except.ok (nodes2, (source_node_id, destination_node_id, row.2.2.1, row.2.2.2))

/-- One row of `constructors.rs::parse_edge_type_ids_vocabulary`
(lines 238-269): resolve the optional edge-type name. -/
def parse_edge_type_ids_step (edge_list_is_correct : Bool) (edge_types : Vocabulary)
    (row : ℕ × ℕ × Option String × Option ℚ) : Res (Vocabulary × Quadruple) :=
  match row.2.2.1 with
  | some et =>
    if edge_list_is_correct then
      let (ets, tid) := edge_types.unchecked_insert et
      Except.ok (ets, (row.1, row.2.1, some tid, row.2.2.2))
    else do
      let (ets, tid, _) ← edge_types.insert et
      Except.ok (ets, (row.1, row.2.1, some tid, row.2.2.2))
  | none => Except.ok (edge_types, (row.1, row.2.1, none, row.2.2.2))

/-- The `(src, dst, edge_type)` comparison of `parse_unsorted_quadruples`
(lines 322-325); Rust orders `Option` with `None` first. -/
def quadLE (q1 q2 : Quadruple) : Bool :=
  if q1.1 != q2.1 then decide (q1.1 < q2.1)
  else if q1.2.1 != q2.2.1 then decide (q1.2.1 < q2.2.1)
  else
    match q1.2.2.1, q2.2.2.1 with
    | none, _ => true
    | some _, none => false
    | some a, some b => decide (a ≤ b)

/-- `constructors.rs::parse_string_unsorted_edges` (lines 359-416): resolve
node and edge-type names row by row, mirror non-selfloop edges of an
undirected graph given as a non-directed edge list (lines 394-405), collect,
sort by `(src, dst, edge_type)` (`parse_unsorted_quadruples`, lines
318-334) and finalize both vocabularies. -/
def parse_string_unsorted_edges (edges_iter : List (Except String StringQuadruple))
    (nodes : Vocabulary)
    (directed directed_edge_list edge_list_is_correct has_edge_types
      numeric_edge_type_ids : Bool) :
    Res (ℕ × List (Except String Quadruple) × Vocabulary × Option Vocabulary) := do
  let empty_nodes_mapping := nodes.is_empty
  let edge_types_vocabulary : Option Vocabulary :=
    if has_edge_types then some (Vocabulary.empty.set_numeric_ids numeric_edge_type_ids)
    else none
  let r ← edges_iter.foldlM
    (fun (acc : Vocabulary × Option Vocabulary × List Quadruple) row => do
      match row with
      | Except.error e => Except.error (Failure.err e)
      | Except.ok sq => do
        let (nodes', row1) ←
          parse_edges_node_ids_step empty_nodes_mapping edge_list_is_correct acc.1 sq
        let etQ ← match acc.2.1 with
          | some ets => do
            let (ets2, q) ← parse_edge_type_ids_step edge_list_is_correct ets row1
            Except.ok (some ets2, q)
          | none => Except.ok ((none : Option Vocabulary),
              (row1.1, row1.2.1, none, row1.2.2.2))
        let q := etQ.2
        let mirrored :=
          if !directed && q.1 != q.2.1 && !directed_edge_list then
            [q, (q.2.1, q.1, q.2.2.1, q.2.2.2)]
          else [q]
        Except.ok (nodes', etQ.1, acc.2.2 ++ mirrored))
    (nodes, edge_types_vocabulary, [])
  let sorted := r.2.2.mergeSort quadLE
  let nodes ← r.1.build_reverse_mapping
  let edge_types_vocabulary ← match r.2.1 with
    | some ets => (ets.build_reverse_mapping).map some
    | none => Except.ok none
  Except.ok (sorted.length, sorted.map Except.ok, nodes, edge_types_vocabulary)

/-- The Inconsistent error of `check_numeric_ids_compatibility`
(lines 50-56). -/
def numericMismatchMsg : String :=
  "You are trying to load a numeric node list and a non numeric edge list."

/-- `constructors.rs::check_numeric_ids_compatibility` (lines 44-59). -/
def check_numeric_ids_compatibility
    (has_nodes_list numeric_node_ids numeric_edge_node_ids : Bool) : Res Unit :=
  if has_nodes_list && numeric_node_ids && !numeric_edge_node_ids then
    Except.error (Failure.err numericMismatchMsg)
  else Except.ok ()

/-- The assembled output of a construction (the `Graph::new` assembly is not
shipped in the tree; modelled from the spec §4.5 step 10 as the plain record
of the computed pieces). -/
structure BuiltGraph where
  result : BuildResult
  nodes : Vocabulary
  node_types : Option NodeTypeVocabulary
  edge_types_vocabulary : Option Vocabulary
  directed : Bool
  name : String
deriving DecidableEq

/-- `constructors.rs::build_graph` (lines 985-1049) through
`parse_integer_edges` (lines 905-981): run `build_edges` on the integer
stream and assemble. -/
def build_graph (edges_iter : List (Except String Quadruple)) (nodes : Vocabulary)
    (node_types : Option NodeTypeVocabulary) (edge_types_vocabulary : Option Vocabulary)
    (directed edge_list_is_correct : Bool) (name : String)
    (ignore_duplicated_edges has_edge_types has_edge_weights might_have_singletons
      might_have_singletons_with_selfloops might_have_trap_nodes : Bool) :
    Res BuiltGraph := do
  let p : BuildParams :=
    { nodes_number := nodes.len
      ignore_duplicated_edges := ignore_duplicated_edges
      has_edge_weights := has_edge_weights
      has_edge_types := has_edge_types
      might_have_singletons := might_have_singletons
      might_have_singletons_with_selfloops := might_have_singletons_with_selfloops
      might_have_trap_nodes := might_have_trap_nodes
      directed := directed
      edge_list_is_correct := edge_list_is_correct }
  let r ← build_edges p edges_iter
  Except.ok
    { result := r
      nodes := nodes
      node_types := node_types
      edge_types_vocabulary := edge_types_vocabulary
      directed := directed
      name := name }

/-- `constructors.rs::from_string_unsorted` (lines 1074-1151). -/
def from_string_unsorted (edges_iterator : List (Except String StringQuadruple))
    (nodes_iterator : Option (List (Except String (String × Option (List String)))))
    (directed directed_edge_list : Bool) (name : String)
    (ignore_duplicated_nodes node_list_is_correct ignore_duplicated_edges
      edge_list_is_correct numeric_edge_type_ids numeric_node_ids
      numeric_edge_node_ids numeric_node_types_ids has_node_types has_edge_types
      has_edge_weights might_have_singletons might_have_singletons_with_selfloops
      might_have_trap_nodes : Bool) : Res BuiltGraph := do
  check_numeric_ids_compatibility nodes_iterator.isSome numeric_node_ids
    numeric_edge_node_ids
  let nnt ← parse_nodes nodes_iterator ignore_duplicated_nodes node_list_is_correct
    numeric_node_ids numeric_node_types_ids numeric_edge_node_ids has_node_types
  let might_have_singletons := !nnt.1.is_empty && might_have_singletons
  let might_have_trap_nodes := directed && might_have_trap_nodes
  let parsed ← parse_string_unsorted_edges edges_iterator nnt.1 directed
    directed_edge_list edge_list_is_correct has_edge_types numeric_edge_type_ids
  build_graph parsed.2.1 parsed.2.2.1 nnt.2 parsed.2.2.2 directed
    (edge_list_is_correct || !directed_edge_list) name ignore_duplicated_edges
    has_edge_types has_edge_weights might_have_singletons
    might_have_singletons_with_selfloops might_have_trap_nodes

/-! ## Well-formedness and concrete instances -/

/-- What the (absent) old-layout constructor establishes for the `graph.rs`
fields: matching array lengths, endpoints below `N`, cumulative `outbounds`,
`unique_edges` keyed by the distinct stored pairs, `not_trap_nodes` the nodes
of positive degree, and for undirected graphs a direction-closed edge set
(spec §3, I2 and §4.6). -/
def Graph.WF (g : Graph) : Prop :=
  g.sources.length = g.destinations.length
  ∧ g.outbounds.length = g.get_nodes_number
  ∧ (∀ e ∈ g.edgesList, e.1 < g.get_nodes_number ∧ e.2 < g.get_nodes_number)
  ∧ (∀ u < g.get_nodes_number,
      g.outbounds.getD u 0 = g.sources.countP (fun s => s ≤ u))
  ∧ (g.unique_edges.map Prod.fst).Perm g.edgesList.dedup
  ∧ g.not_trap_nodes
    = (List.range g.get_nodes_number).filter (fun u => !(g.is_node_trap u))
  ∧ (g.is_directed = false → ∀ e ∈ g.edgesList, (e.2, e.1) ∈ g.edgesList)

/-- The edge keys of the monotone layout: one encoded key per stored edge
occurrence. -/
def Graph.edgeKeys (g : Graph) : List ℕ :=
  g.edgesList.map (fun p => encode_edge p.1 p.2 g.node_bits)

/-- The endpoint pair of an edge id, as the holdout loop reads it. -/
def Graph.pairOf (g : Graph) (e : ℕ) : ℕ × ℕ :=
  (g.sources.getD e 0, g.destinations.getD e 0)

/-- Parameters of an undirected build from a directed edge list with no
types, weights or singleton tracking, over two nodes. -/
def undirParams : BuildParams :=
  { nodes_number := 2
    ignore_duplicated_edges := false
    has_edge_weights := false
    has_edge_types := false
    might_have_singletons := false
    might_have_singletons_with_selfloops := false
    might_have_trap_nodes := false
    directed := false
    edge_list_is_correct := false }

/-- Directed build parameters that ignore duplicated edges. -/
def dupIgnoreParams : BuildParams :=
  { undirParams with
    directed := true
    edge_list_is_correct := true
    ignore_duplicated_edges := true }

/-- Directed build parameters that reject duplicated edges. -/
def dupErrorParams : BuildParams :=
  { undirParams with
    directed := true
    edge_list_is_correct := true
    ignore_duplicated_edges := false }

/-- Directed build parameters tracking edge types. -/
def typedDupParams : BuildParams :=
  { undirParams with
    directed := true
    edge_list_is_correct := true
    has_edge_types := true }

/-- The loop state after ingesting the single edge `(0, 1)` of edge type 0
under `typedDupParams`. -/
def c3State : BuildState :=
  { edges := [1]
    edge_type_ids := some [some 0]
    weights := none
    unique_sources := none
    not_singleton_nodes := none
    singleton_nodes_with_selfloops := none
    last_src := 0
    last_dst := 1
    last_edge_type := some 0
    unique_edges_number := 1
    unique_selfloop_number := 0
    selfloop_number := 0
    forward_undirected_edges_counter := 0
    backward_undirected_edges_counter := 0
    not_singleton_node_number := 2
    first := false }

/-- Directed graph with the single edge `0 → 1`; node `1` is a trap node
that appears as a destination. -/
def denseCounterGraph : Graph :=
  { is_directed := true
    nodes := ["a", "b"]
    sources := [0]
    destinations := [1]
    outbounds := [1, 1]
    unique_edges := [((0, 1), ⟨0, none⟩)]
    not_trap_nodes := [0] }

/-- Directed multigraph with two parallel `0 → 1` edges of different edge
types. -/
def multiTypedGraph : Graph :=
  { is_directed := true
    nodes := ["a", "b"]
    sources := [0, 0]
    destinations := [1, 1]
    outbounds := [2, 2]
    edge_types := some [0, 1]
    unique_edges := [((0, 1), ⟨0, some [0, 1]⟩)]
    not_trap_nodes := [0] }

/-- Graph with one node, one node type and no edges. -/
def typedGraph : Graph :=
  { is_directed := true
    nodes := ["a"]
    sources := []
    destinations := []
    outbounds := [0]
    node_types := some [7]
    not_trap_nodes := [] }

/-- Edgeless one-node graph without edge types. -/
def plainGraph : Graph :=
  { is_directed := true
    nodes := ["a"]
    sources := []
    destinations := []
    outbounds := [0] }

/-- Edgeless one-node graph with an (empty) edge-type vocabulary, as
negative-edge graphs carry. -/
def typedEdgeGraph : Graph :=
  { is_directed := true
    nodes := ["a"]
    sources := []
    destinations := []
    outbounds := [0]
    edge_types := some [] }

/-- Undirected graph on three nodes with the single logical edge `a - b`,
stored in both directions. -/
def undirPairGraph : Graph :=
  { is_directed := false
    nodes := ["a", "b", "c"]
    sources := [0, 1]
    destinations := [1, 0]
    outbounds := [1, 2, 2]
    unique_edges := [((0, 1), ⟨0, none⟩), ((1, 0), ⟨1, none⟩)]
    not_trap_nodes := [0, 1] }

/-- Undirected triangle, each logical edge stored in both directions. -/
def triangleGraph : Graph :=
  { is_directed := false
    nodes := ["a", "b", "c"]
    sources := [0, 0, 1, 1, 2, 2]
    destinations := [1, 2, 0, 2, 0, 1]
    outbounds := [2, 4, 6]
    unique_edges :=
      [((0, 1), ⟨0, none⟩), ((0, 2), ⟨1, none⟩), ((1, 0), ⟨2, none⟩),
        ((1, 2), ⟨3, none⟩), ((2, 0), ⟨4, none⟩), ((2, 1), ⟨5, none⟩)]
    not_trap_nodes := [0, 1, 2] }

/-! ## Basic arithmetic facts about the codec (theorems start here) -/

theorem le_two_pow_clog2_fuel : ∀ fuel m, m ≤ fuel → m ≤ 2 ^ clog2_fuel fuel m := by
  intro fuel
  induction fuel with
  | zero =>
    intro m hm
    rw [Nat.le_zero.mp hm]
    simp [clog2_fuel]
  | succ fuel ih =>
    intro m hm
    rw [clog2_fuel]
    split
    next h1 => simpa using h1
    next h1 =>
      push_neg at h1
      have hrec : (m + 1) / 2 ≤ fuel := by omega
      have hih := ih ((m + 1) / 2) hrec
      calc m ≤ 2 * ((m + 1) / 2) := by omega
        _ ≤ 2 * 2 ^ clog2_fuel fuel ((m + 1) / 2) := by omega
        _ = 2 ^ (clog2_fuel fuel ((m + 1) / 2) + 1) := by rw [pow_succ]; ring

theorem clog2_fuel_eq_clog : ∀ fuel m, m ≤ fuel → clog2_fuel fuel m = Nat.clog 2 m := by
  intro fuel
  induction fuel with
  | zero =>
    intro m hm
    rw [Nat.le_zero.mp hm]
    simp [clog2_fuel]
  | succ fuel ih =>
    intro m hm
    rw [clog2_fuel]
    split
    next h1 => rw [Nat.clog_of_right_le_one h1]
    next h1 =>
      push_neg at h1
      rw [ih ((m + 1) / 2) (by omega), Nat.clog_of_two_le (by norm_num) h1]
      norm_num

/-- The halving recursion agrees with the spec's `ceil(log2(max(N, 2)))`. -/
theorem get_node_bits_eq_clog (n : ℕ) : get_node_bits n = Nat.clog 2 (max n 2) :=
  clog2_fuel_eq_clog (max n 2) (max n 2) (le_refl _)

theorem nodes_le_two_pow_node_bits (n : ℕ) : n ≤ 2 ^ get_node_bits n := by
  calc n ≤ max n 2 := le_max_left _ _
    _ ≤ 2 ^ clog2_fuel (max n 2) (max n 2) := le_two_pow_clog2_fuel _ _ (le_refl _)

theorem lor_high_low (s d b : ℕ) (h : d < 2 ^ b) :
    (s <<< b) ||| d = s * 2 ^ b + d := by
  rw [Nat.shiftLeft_eq, Nat.mul_comm s (2 ^ b)]
  exact (Nat.mul_add_lt_is_or h s).symm

theorem encode_edge_eq_add (s d b : ℕ) (h : d < 2 ^ b) :
    encode_edge s d b = s * 2 ^ b + d := lor_high_low s d b h

theorem decode_encode (s d b : ℕ) (h : d < 2 ^ b) :
    decode_edge (encode_edge s d b) b = (s, d) := by
  rw [decode_edge, encode_edge_eq_add s d b h, node_bit_mask,
    Nat.shiftRight_eq_div_pow, Nat.and_pow_two_sub_one_eq_mod]
  have h2 : (0 : ℕ) < 2 ^ b := Nat.pos_pow_of_pos b (by norm_num)
  rw [Prod.mk.injEq]
  refine ⟨?_, ?_⟩
  · rw [Nat.mul_comm s (2 ^ b)]
    simp [Nat.mul_add_div h2, Nat.div_eq_of_lt h]
  · rw [Nat.mul_comm s (2 ^ b)]
    simp [Nat.mul_add_mod, Nat.mod_eq_of_lt h]

theorem encode_edge_injOn (b s d s' d' : ℕ) (hd : d < 2 ^ b) (hd' : d' < 2 ^ b)
    (h : encode_edge s d b = encode_edge s' d' b) : s = s' ∧ d = d' := by
  have h1 := decode_encode s d b hd
  have h2 := decode_encode s' d' b hd'
  rw [h] at h1
  rw [h1] at h2
  exact ⟨(Prod.mk.injEq _ _ _ _).mp h2 |>.1, (Prod.mk.injEq _ _ _ _).mp h2 |>.2⟩

/-! ## Properties of the first-occurrence deduplication -/

theorem mem_uniqueKeepFirstAux (x : ℕ) :
    ∀ (l seen : List ℕ), x ∈ uniqueKeepFirstAux seen l ↔ (x ∈ l ∧ x ∉ seen) := by
  intro l
  induction l with
  | nil => intro seen; simp [uniqueKeepFirstAux]
  | cons a l ih =>
    intro seen
    by_cases hc : seen.contains a
    · rw [uniqueKeepFirstAux, if_pos hc, ih seen]
      have ha : a ∈ seen := by simpa using hc
      constructor
      · rintro ⟨hl, hs⟩; exact ⟨List.mem_cons_of_mem a hl, hs⟩
      · rintro ⟨hl, hs⟩
        rcases List.mem_cons.mp hl with rfl | hl
        · exact absurd ha hs
        · exact ⟨hl, hs⟩
    · rw [uniqueKeepFirstAux, if_neg hc]
      have ha : a ∉ seen := by simpa using hc
      rw [List.mem_cons, ih (a :: seen)]
      constructor
      · rintro (rfl | ⟨hl, hs⟩)
        · exact ⟨List.mem_cons_self _ _, ha⟩
        · exact ⟨List.mem_cons_of_mem _ hl, fun hx => hs (List.mem_cons_of_mem _ hx)⟩
      · rintro ⟨hl, hs⟩
        rcases List.mem_cons.mp hl with rfl | hl
        · exact Or.inl rfl
        · by_cases hxa : x = a
          · exact Or.inl hxa
          · exact Or.inr ⟨hl, fun hx => by
              rcases List.mem_cons.mp hx with h | h
              · exact hxa h
              · exact hs h⟩

theorem nodup_uniqueKeepFirstAux : ∀ (l seen : List ℕ), (uniqueKeepFirstAux seen l).Nodup := by
  intro l
  induction l with
  | nil => intro seen; simp [uniqueKeepFirstAux]
  | cons a l ih =>
    intro seen
    by_cases hc : seen.contains a
    · rw [uniqueKeepFirstAux, if_pos hc]; exact ih seen
    · rw [uniqueKeepFirstAux, if_neg hc]
      refine List.Nodup.cons (fun hmem => ?_) (ih (a :: seen))
      exact ((mem_uniqueKeepFirstAux a l (a :: seen)).mp hmem).2 (List.mem_cons_self a seen)

theorem mem_uniqueKeepFirst (x : ℕ) (l : List ℕ) : x ∈ uniqueKeepFirst l ↔ x ∈ l := by
  rw [uniqueKeepFirst, mem_uniqueKeepFirstAux]
  simp

theorem nodup_uniqueKeepFirst (l : List ℕ) : (uniqueKeepFirst l).Nodup :=
  nodup_uniqueKeepFirstAux l []

/-! ## Claim C7 -/

/-- Claim C7, counterexample: in the well-formed directed graph with the
single edge `0 → 1`, node `1` is a trap node but belongs to the domain of
`get_dense_nodes_mapping`, and the mapping has two entries while only one
node is not a trap — so the mapping is not a bijection from the non-trap
nodes onto `[0, not_trap_count)`. -/
theorem C7_counterexample :
    denseCounterGraph.WF
    ∧ (1, 1) ∈ denseCounterGraph.get_dense_nodes_mapping
    ∧ denseCounterGraph.is_node_trap 1 = true
    ∧ denseCounterGraph.is_node_trap 0 = false
    ∧ denseCounterGraph.not_trap_nodes = [0]
    ∧ denseCounterGraph.get_dense_nodes_mapping.length = 2 := by
  refine ⟨?_, by decide, by decide, by decide, by decide, by decide⟩
  refine ⟨by decide, by decide, by decide, by decide, by decide, by decide, by decide⟩

/-- Claim C7 (amended): `get_dense_nodes_mapping` is a bijection from the
nodes incident to at least one stored edge (as a source or as a
destination, in first-occurrence order) onto the contiguous range
`[0, K)`, `K` being the number of such nodes: its keys list all incident
nodes without duplicates and its values are exactly `0, 1, …, K-1`. -/
theorem C7_dense_nodes_mapping (g : Graph) :
    g.get_dense_nodes_mapping.map Prod.fst = uniqueKeepFirst (g.sources ++ g.destinations)
    ∧ (g.get_dense_nodes_mapping.map Prod.fst).Nodup
    ∧ g.get_dense_nodes_mapping.map Prod.snd
      = List.range g.get_dense_nodes_mapping.length
    ∧ ∀ n : ℕ, n ∈ g.get_dense_nodes_mapping.map Prod.fst
        ↔ (n ∈ g.sources ∨ n ∈ g.destinations) := by
  have hfst : g.get_dense_nodes_mapping.map Prod.fst
      = uniqueKeepFirst (g.sources ++ g.destinations) := by
    rw [Graph.get_dense_nodes_mapping, List.map_map]
    have : (Prod.fst ∘ fun p : ℕ × ℕ => (p.2, p.1)) = Prod.snd := rfl
    rw [this, List.enum_map_snd]
  refine ⟨hfst, ?_, ?_, ?_⟩
  · rw [hfst]; exact nodup_uniqueKeepFirst _
  · rw [Graph.get_dense_nodes_mapping, List.map_map, List.length_map]
    have : (Prod.snd ∘ fun p : ℕ × ℕ => (p.2, p.1)) = Prod.fst := rfl
    rw [this, List.enum_map_fst, List.enum_length]
  · intro n
    rw [hfst, mem_uniqueKeepFirst, List.mem_append]

/-! ## Claim C10 -/

/-- Claim C10: with node types present, `get_node_type_id` returns
`Ok(node_types.ids[node_id])` for every `node_id` strictly below the length
of the node-types vector and an error for every `node_id` strictly above it;
the guard being the non-strict `node_id <= len`, the boundary
`node_id = len` is not routed to the error branch and the vector indexing is
out of bounds (a panic). -/
theorem C10_get_node_type_id_boundary (g : Graph) (ids : List ℕ) (node_id : ℕ)
    (h : g.node_types = some ids) :
    (∀ h2 : node_id < ids.length,
      g.get_node_type_id node_id = Except.ok (ids.get ⟨node_id, h2⟩))
    ∧ (ids.length < node_id →
      g.get_node_type_id node_id
        = Except.error (Failure.err "The node_index is too big for the node_types vector"))
    ∧ (node_id = ids.length →
      g.get_node_type_id node_id = Except.error (Failure.panicked "index out of bounds")) := by
  refine ⟨?_, ?_, ?_⟩
  · intro h2
    have h3 : ids[node_id]? = some ids[node_id] := List.getElem?_eq_getElem h2
    simp [Graph.get_node_type_id, h, indexP, Nat.le_of_lt h2, h3]
  · intro h2
    simp [Graph.get_node_type_id, h, Nat.not_le.mpr h2]
  · intro h2
    subst h2
    have h3 : ids[ids.length]? = none := List.getElem?_eq_none (le_refl _)
    simp [Graph.get_node_type_id, h, indexP, h3]

/-- Witness for C10 on a one-entry node-type vector: `Ok` below the length,
a panic at the length, an error above it. -/
theorem C10_witness :
    typedGraph.get_node_type_id 0 = Except.ok 7
    ∧ typedGraph.get_node_type_id 1 = Except.error (Failure.panicked "index out of bounds")
    ∧ typedGraph.get_node_type_id 2
      = Except.error (Failure.err "The node_index is too big for the node_types vector") :=
  ⟨(C10_get_node_type_id_boundary typedGraph [7] 0 rfl).1 (by decide),
    (C10_get_node_type_id_boundary typedGraph [7] 1 rfl).2.2 (by decide),
    (C10_get_node_type_id_boundary typedGraph [7] 2 rfl).2.1 (by decide)⟩

/-! ## Claim C9 -/

/-- Claim C9: when exactly one of the two graphs has edge types, `overlaps`
returns an error rather than a boolean; consequently `sample_negatives`
called with such a seed graph propagates that error and samples nothing. -/
theorem C9_overlaps_mismatch (g sg : Graph) (random_state negatives_number : ℕ)
    (oracle : ℕ → List ℕ) (fuel : ℕ)
    (hxor : g.has_edge_types ≠ sg.has_edge_types) (hk : negatives_number ≠ 0) :
    g.overlaps sg = Except.error (Failure.err edgeTypesMismatchMsg)
    ∧ g.sample_negatives random_state negatives_number (some sg) oracle fuel
      = Except.error (Failure.err edgeTypesMismatchMsg) := by
  have hb : (g.has_edge_types != sg.has_edge_types) = true := by
    simpa [bne_iff_ne] using hxor
  have hov : g.overlaps sg = Except.error (Failure.err edgeTypesMismatchMsg) := by
    simp [Graph.overlaps, hb]
  refine ⟨hov, ?_⟩
  simp [Graph.sample_negatives, hk, hov, Bind.bind, Except.bind]

/-- Witness for C9: an edgeless graph without edge types against a seed
graph carrying an (empty) edge-type vocabulary. -/
theorem C9_witness :
    plainGraph.overlaps typedEdgeGraph = Except.error (Failure.err edgeTypesMismatchMsg)
    ∧ plainGraph.sample_negatives 42 1 (some typedEdgeGraph) (fun _ => []) 3
      = Except.error (Failure.err edgeTypesMismatchMsg) :=
  C9_overlaps_mismatch plainGraph typedEdgeGraph 42 1 (fun _ => []) 3 (by decide) (by decide)

/-! ## Claim C4 -/

theorem countP_src_split (l : List (ℕ × ℕ)) (u : ℕ) :
    l.countP (fun e => decide (e.1 ≤ u))
      = l.countP (fun e => decide (e.1 < u)) + l.countP (fun e => decide (e.1 = u)) := by
  induction l with
  | nil => simp
  | cons e l ih =>
    rcases Nat.lt_trichotomy e.1 u with h | h | h
    · simp [List.countP_cons, h, Nat.le_of_lt h, Nat.ne_of_lt h, ih]
      omega
    · simp [List.countP_cons, h, ih]
      omega
    · simp [List.countP_cons, Nat.not_le.mpr h, Nat.lt_asymm h,
        (Nat.ne_of_lt h).symm, ih]

theorem countP_zip_fst (p : ℕ → Bool) :
    ∀ (l1 l2 : List ℕ), l1.length = l2.length →
      (l1.zip l2).countP (fun e => p e.1) = l1.countP p := by
  intro l1
  induction l1 with
  | nil => intro l2 _; simp
  | cons a l1 ih =>
    intro l2 hlen
    cases l2 with
    | nil => simp at hlen
    | cons b l2 =>
      simp only [List.zip_cons_cons, List.countP_cons]
      rw [ih l2 (by simpa using hlen)]

theorem encode_lt_mul_iff (s d b u : ℕ) (hd : d < 2 ^ b) :
    encode_edge s d b < u * 2 ^ b ↔ s < u := by
  rw [encode_edge_eq_add s d b hd]
  constructor
  · intro h
    by_contra hs
    push_neg at hs
    have h2 : u * 2 ^ b ≤ s * 2 ^ b := Nat.mul_le_mul_right _ hs
    omega
  · intro h
    have h2 : (s + 1) * 2 ^ b ≤ u * 2 ^ b := Nat.mul_le_mul_right _ h
    have h3 : s * 2 ^ b + d < (s + 1) * 2 ^ b := by
      rw [Nat.succ_mul]
      omega
    omega

/-- Claim C4, counterexample: a well-formed directed multigraph with two
parallel edges `0 → 1` of distinct edge types has `degree 0 = 2`, while only
one distinct destination `v` has `(0, v)` stored — so `degree(u)` is not the
number of distinct destinations. -/
theorem C4_counterexample :
    multiTypedGraph.WF
    ∧ multiTypedGraph.degree 0 = 2
    ∧ ((multiTypedGraph.edgesList.filter (fun e => e.1 == 0)).map Prod.snd).dedup.length = 1
    ∧ (multiTypedGraph.unique_edges.map Prod.fst).countP (fun p => p.1 == 0) = 1 := by
  refine ⟨⟨by decide, by decide, by decide, by decide, by decide, by decide, by decide⟩,
    by decide, by decide, by decide⟩

/-- Claim C4 (amended): for a well-formed graph and `u < N`, `degree(u)`
counts the stored outgoing edge occurrences of `u` (parallel edges
included), and equals the rank difference
`rank(encode(u+1, 0)) - rank(encode(u, 0))` over the encoded keys; it equals
the number of distinct destinations exactly in the absence of parallel
edges, i.e. when the stored pairs carry no duplicates. -/
theorem C4_degree (g : Graph) (hw : g.WF) (u : ℕ) (hu : u < g.get_nodes_number) :
    g.degree u = g.sources.countP (fun s => decide (s = u))
    ∧ g.degree u
      = ef_unchecked_rank g.edgeKeys (g.encodeG (u + 1) 0)
        - ef_unchecked_rank g.edgeKeys (g.encodeG u 0)
    ∧ (g.edgesList.Nodup →
      g.degree u
        = ((g.edgesList.filter (fun e => e.1 == u)).map Prod.snd).dedup.length) := by
  obtain ⟨hlen, hob, hend, hcum, _hperm, _hnt, _hsym⟩ := hw
  have hz : ∀ v, g.edgesList.countP (fun e => decide (e.1 = v))
      = g.sources.countP (fun s => decide (s = v)) := fun v =>
    countP_zip_fst (fun s => decide (s = v)) g.sources g.destinations hlen
  have hzle : ∀ v, g.edgesList.countP (fun e => decide (e.1 ≤ v))
      = g.sources.countP (fun s => decide (s ≤ v)) := fun v =>
    countP_zip_fst (fun s => decide (s ≤ v)) g.sources g.destinations hlen
  have hzlt : ∀ v, g.edgesList.countP (fun e => decide (e.1 < v))
      = g.sources.countP (fun s => decide (s < v)) := fun v =>
    countP_zip_fst (fun s => decide (s < v)) g.sources g.destinations hlen
  have hdeg : g.degree u = g.sources.countP (fun s => decide (s = u)) := by
    by_cases hu0 : u = 0
    · subst hu0
      have h1 := hcum 0 hu
      have hle0 : g.sources.countP (fun s => decide (s ≤ 0))
          = g.sources.countP (fun s => decide (s = 0)) := by
        refine List.countP_congr (fun s _ => ?_)
        simp [Nat.le_zero]
      rw [List.getD_eq_getElem?_getD] at h1
      simp [Graph.degree, Graph.get_min_max_edge, h1, hle0]
    · have hpos : 0 < u := Nat.pos_of_ne_zero hu0
      have h1 := hcum u hu
      have h2 := hcum (u - 1) (lt_trans (Nat.sub_lt hpos (by norm_num)) hu)
      have hsplit := countP_src_split g.edgesList u
      rw [hzle u, hzlt u, hz u] at hsplit
      have hlow : g.sources.countP (fun s => decide (s ≤ u - 1))
          = g.sources.countP (fun s => decide (s < u)) := by
        refine List.countP_congr (fun s _ => ?_)
        simp only [decide_eq_true_eq]
        omega
      simp only [Graph.degree, Graph.get_min_max_edge, if_neg hu0]
      rw [h1, h2, hlow]
      omega
  refine ⟨hdeg, ?_, ?_⟩
  · have hb := nodes_le_two_pow_node_bits g.get_nodes_number
    have henc : ∀ v, g.encodeG v 0 = v * 2 ^ g.node_bits := fun v => by
      rw [Graph.encodeG, encode_edge_eq_add v 0 g.node_bits (Nat.pos_pow_of_pos _ (by norm_num))]
      omega
    have hrank : ∀ v, ef_unchecked_rank g.edgeKeys (v * 2 ^ g.node_bits)
        = g.edgesList.countP (fun e => decide (e.1 < v)) := by
      intro v
      rw [ef_unchecked_rank, Graph.edgeKeys, List.countP_map]
      refine List.countP_congr (fun e he => ?_)
      have hd : e.2 < 2 ^ g.node_bits := lt_of_lt_of_le (hend e he).2 hb
      simp only [Function.comp, decide_eq_true_eq]
      exact encode_lt_mul_iff e.1 e.2 g.node_bits v hd
    rw [henc u, henc (u + 1), hrank u, hrank (u + 1), hdeg]
    have hsucc : g.edgesList.countP (fun e => decide (e.1 < u + 1))
        = g.edgesList.countP (fun e => decide (e.1 ≤ u)) := by
      refine List.countP_congr (fun e _ => ?_)
      simp [Nat.lt_succ_iff]
    rw [hsucc, countP_src_split g.edgesList u, hz u, hzlt u]
    omega
  · intro hnd
    have hfn : (g.edgesList.filter (fun e => e.1 == u)).Nodup := List.Nodup.filter _ hnd
    have hmn : ((g.edgesList.filter (fun e => e.1 == u)).map Prod.snd).Nodup := by
      refine List.Nodup.map_on (fun x hx y hy hxy => ?_) hfn
      have hx1 : x.1 = u := by simpa using (List.mem_filter.mp hx).2
      have hy1 : y.1 = u := by simpa using (List.mem_filter.mp hy).2
      exact Prod.ext (hx1.trans hy1.symm) hxy
    rw [List.dedup_eq_self.mpr hmn, List.length_map, ← List.countP_eq_length_filter]
    rw [hdeg, ← hz u]
    refine (List.countP_congr (fun e _ => ?_)).symm
    simp

/-- Witness for C4 on the well-formed single-edge graph `0 → 1`. -/
theorem C4_witness :
    denseCounterGraph.WF
    ∧ (denseCounterGraph.degree 0
        = denseCounterGraph.sources.countP (fun s => decide (s = 0))
      ∧ denseCounterGraph.degree 0
        = ef_unchecked_rank denseCounterGraph.edgeKeys (denseCounterGraph.encodeG 1 0)
          - ef_unchecked_rank denseCounterGraph.edgeKeys (denseCounterGraph.encodeG 0 0)
      ∧ (denseCounterGraph.edgesList.Nodup →
        denseCounterGraph.degree 0
          = ((denseCounterGraph.edgesList.filter (fun e => e.1 == 0)).map
              Prod.snd).dedup.length)) :=
  ⟨⟨by decide, by decide, by decide, by decide, by decide, by decide, by decide⟩,
    C4_degree denseCounterGraph
      ⟨by decide, by decide, by decide, by decide, by decide, by decide, by decide⟩
      0 (by decide)⟩

/-! ## Claim C8 -/

theorem word2vec_mapM_panic_of_short (window_size : ℕ) :
    ∀ sequences : List (List ℕ), (∃ s ∈ sequences, s.length < window_size * 2 + 1) →
      sequences.mapM (word2vec_sequence window_size)
        = Except.error (Failure.panicked word2vecPanicMsg) := by
  intro sequences
  induction sequences with
  | nil => rintro ⟨s, hs, _⟩; cases hs
  | cons s rest ih =>
    rintro ⟨x, hx, hshort⟩
    by_cases hlen : s.length < window_size * 2 + 1
    · have herr : word2vec_sequence window_size s
          = Except.error (Failure.panicked word2vecPanicMsg) := by
        simp [word2vec_sequence, hlen]
      rw [List.mapM_cons, herr]
      rfl
    · have hv : word2vec_sequence window_size s
          = Except.ok ((List.range' window_size (s.length - 2 * window_size)).map
            (fun i =>
              ((List.range' (i - window_size) window_size
                  ++ List.range' (i + 1) window_size).map (fun j => s.getD j 0),
                s.getD i 0))) := by
        simp [word2vec_sequence, hlen]
      have hxr : x ∈ rest := by
        rcases List.mem_cons.mp hx with rfl | h
        · exact absurd hshort hlen
        · exact h
      have hrest := ih ⟨x, hxr, hshort⟩
      rw [List.mapM_cons, hv]
      show (rest.mapM (word2vec_sequence window_size)).bind _ = _
      rw [hrest]
      rfl

theorem word2vec_mapM_short_of_error (window_size : ℕ) :
    ∀ (sequences : List (List ℕ)) (e : Failure),
      sequences.mapM (word2vec_sequence window_size) = Except.error e →
      ∃ s ∈ sequences, s.length < window_size * 2 + 1 := by
  intro sequences
  induction sequences with
  | nil => intro e h; cases h
  | cons s rest ih =>
    intro e h
    by_cases hlen : s.length < window_size * 2 + 1
    · exact ⟨s, List.mem_cons_self _ _, hlen⟩
    · have hv : word2vec_sequence window_size s
          = Except.ok ((List.range' window_size (s.length - 2 * window_size)).map
            (fun i =>
              ((List.range' (i - window_size) window_size
                  ++ List.range' (i + 1) window_size).map (fun j => s.getD j 0),
                s.getD i 0))) := by
        simp [word2vec_sequence, hlen]
      rw [List.mapM_cons, hv] at h
      replace h : (rest.mapM (word2vec_sequence window_size)).bind _ = Except.error e := h
      cases hrest : rest.mapM (word2vec_sequence window_size) with
      | ok bs => rw [hrest] at h; cases h
      | error e2 =>
        obtain ⟨x, hx, hshort⟩ := ih e2 hrest
        exact ⟨x, List.mem_cons_of_mem _ hx, hshort⟩

theorem has_selfloops_of_selfloop_edge (g : Graph) (u : ℕ)
    (h : (u, u) ∈ g.edgesList) : g.has_selfloops = true := by
  rw [Graph.has_selfloops]
  exact List.any_eq_true.mpr ⟨(u, u), h, by simp⟩

theorem linkpred_single_node_panics (g : Graph) (gta : Option Graph) (afn : Bool)
    (index : ℕ) (step : ℕ → ℕ) (hg : g.get_nodes_number = 1)
    (hsl : g.has_selfloops = false) (hstep : ∀ x, step x < 2 ^ 64) :
    ∀ attempts sampled, sampled < 2 ^ 64 →
      link_prediction_negative_sample g gta afn index step attempts sampled
        = Except.error (Failure.panicked lpAttemptsPanicMsg) := by
  have hedge : g.has_edge 0 0 = false := by
    by_contra hx
    have hx2 : (0, 0) ∈ g.edgesList := by
      have := Bool.of_not_eq_false hx
      simpa [Graph.has_edge] using this
    rw [has_selfloops_of_selfloop_edge g 0 hx2] at hsl
    cases hsl
  intro attempts
  induction attempts with
  | zero => intro sampled _; rfl
  | succ n ih =>
    intro sampled hs
    have hsrc : fast_u32_modulo (sampled % 2 ^ 32) g.get_nodes_number = 0 := by
      rw [hg, fast_u32_modulo, Nat.mul_one, Nat.shiftRight_eq_div_pow]
      exact Nat.div_eq_of_lt (Nat.mod_lt _ (by norm_num))
    have hdst : fast_u32_modulo (sampled / 2 ^ 32) g.get_nodes_number = 0 := by
      rw [hg, fast_u32_modulo, Nat.mul_one, Nat.shiftRight_eq_div_pow]
      refine Nat.div_eq_of_lt (Nat.div_lt_of_lt_mul ?_)
      calc sampled < 2 ^ 64 := hs
        _ = 2 ^ 32 * 2 ^ 32 := by norm_num
    simp only [link_prediction_negative_sample, hsrc, hdst, hedge, hsl,
      Bool.and_false, Bool.not_false, Bool.and_true, beq_self_eq_true]
    cases gta with
    | none =>
      simp only [Bool.false_eq_true, if_false, if_true]
      exact ih (step sampled) (hstep sampled)
    | some ga =>
      cases hga : ga.has_edge 0 0 with
      | true =>
        simp only [hga, if_true]
        exact ih (step sampled) (hstep sampled)
      | false =>
        simp only [hga, Bool.false_eq_true, if_false, if_true]
        exact ih (step sampled) (hstep sampled)

/-- Claim C8, counterexample: the public batch generator `word2vec` panics
on the user-supplied input of a single sequence `[0]` with window size 1
(shorter than the required `2 * 1 + 1`), so public entry points do panic on
user-supplied data. -/
theorem C8_counterexample :
    word2vec [[0]] 1 = Except.error (Failure.panicked word2vecPanicMsg) := by
  rfl

/-- Claim C8 (amended): public operations return results or error values
except that `word2vec` panics exactly when some supplied sequence is shorter
than `window_size * 2 + 1`, and the negative branch of
`link_prediction_ids` panics once its sampling attempts are exhausted — on a
selfloop-free single-node graph every candidate is rejected, so it panics
for every attempt budget and every resampling stream. -/
theorem C8_public_generators_panic (sequences : List (List ℕ)) (window_size : ℕ)
    (g : Graph) (gta : Option Graph) (afn : Bool) (index : ℕ) (step : ℕ → ℕ)
    (attempts sampled : ℕ) (hg : g.get_nodes_number = 1)
    (hsl : g.has_selfloops = false) (hstep : ∀ x, step x < 2 ^ 64)
    (hs : sampled < 2 ^ 64) :
    (word2vec sequences window_size = Except.error (Failure.panicked word2vecPanicMsg)
      ↔ ∃ s ∈ sequences, s.length < window_size * 2 + 1)
    ∧ link_prediction_negative_sample g gta afn index step attempts sampled
      = Except.error (Failure.panicked lpAttemptsPanicMsg) := by
  refine ⟨⟨?_, ?_⟩, linkpred_single_node_panics g gta afn index step hg hsl hstep attempts
    sampled hs⟩
  · intro h
    rw [word2vec] at h
    cases hm : sequences.mapM (word2vec_sequence window_size) with
    | ok v =>
      rw [hm] at h
      cases h
    | error e => exact word2vec_mapM_short_of_error window_size sequences e hm
  · intro h
    rw [word2vec, word2vec_mapM_panic_of_short window_size sequences h]
    rfl

/-- Witness for C8: the short sequence `[0]` with window 1, and the
single-node graph with two sampling attempts and the constant resampler. -/
theorem C8_witness :
    (word2vec [[0]] 1 = Except.error (Failure.panicked word2vecPanicMsg)
      ↔ ∃ s ∈ [[0]], s.length < 1 * 2 + 1)
    ∧ link_prediction_negative_sample plainGraph none false 0 (fun _ => 0) 2 0
      = Except.error (Failure.panicked lpAttemptsPanicMsg) :=
  C8_public_generators_panic [[0]] 1 plainGraph none false 0 (fun _ => 0) 2 0
    (by decide) (by decide) (fun _ => by norm_num) (by norm_num)

/-! ## Claim C6 -/

/-- Claim C6: whenever a node list is provided with `numeric_node_ids` and
without `numeric_edge_node_ids`, `from_string_unsorted` fails with the
Inconsistent error of `check_numeric_ids_compatibility` — for every edge
iterator, node iterator and remaining flag, hence before any node or edge
row is ingested; in particular loading the node list `["7", "8"]` with
those flags fails. -/
theorem C6_numeric_ids_incompatibility :
    (∀ (edges_iterator : List (Except String StringQuadruple))
      (nodes_rows : List (Except String (String × Option (List String))))
      (directed directed_edge_list : Bool) (name : String)
      (f1 f2 f3 f4 f5 f6 f7 f8 f9 f10 f11 f12 : Bool),
      from_string_unsorted edges_iterator (some nodes_rows) directed directed_edge_list
        name f1 f2 f3 f4 f5 true false f6 f7 f8 f9 f10 f11 f12
        = Except.error (Failure.err numericMismatchMsg))
    ∧ from_string_unsorted []
        (some [Except.ok ("7", none), Except.ok ("8", none)]) true true "g"
        false false false false false true false false false false false false false false
      = Except.error (Failure.err numericMismatchMsg) := by
  refine ⟨?_, rfl⟩
  intro edges_iterator nodes_rows directed directed_edge_list name
    f1 f2 f3 f4 f5 f6 f7 f8 f9 f10 f11 f12
  rfl

/-! ## Shared lemmas on the `build_edges` loop -/

theorem buildEdgesGo_append (p : BuildParams) (b : ℕ) :
    ∀ (l1 l2 : List (Except String Quadruple)) (st : BuildState),
      buildEdgesGo p b st (l1 ++ l2)
        = (buildEdgesGo p b st l1) >>= (fun st2 => buildEdgesGo p b st2 l2) := by
  intro l1
  induction l1 with
  | nil =>
    intro l2 st
    simp [buildEdgesGo, Bind.bind, Except.bind]
  | cons item rest ih =>
    intro l2 st
    cases item with
    | error e => simp [buildEdgesGo, Bind.bind, Except.bind]
    | ok q =>
      simp only [List.cons_append, buildEdgesGo]
      cases hstep : buildStep p b st q with
      | ok st2 => simp [Bind.bind, Except.bind, hstep, ih]
      | error e => simp [Bind.bind, Except.bind, hstep]

theorem weightStep_ok_pres (st : BuildState) (w : Option ℚ) (st2 : BuildState)
    (h : weightStep st w = Except.ok st2) :
    st2.edges = st.edges ∧ st2.edge_type_ids = st.edge_type_ids := by
  rw [weightStep.eq_def] at h
  split at h
  · simp only [validate_weight] at h
    split at h
    · simp only [Bind.bind, Except.bind] at h
      cases h
    · simp only [Bind.bind, Except.bind] at h
      cases h
      exact ⟨rfl, rfl⟩
  · cases h
  · cases h
  · cases h
    exact ⟨rfl, rfl⟩

theorem undirectedCheckStep_ok_pres (p : BuildParams) (b : ℕ) (st : BuildState)
    (src dst : ℕ) (et : Option ℕ) (st2 : BuildState)
    (h : undirectedCheckStep p b st src dst et = Except.ok st2) :
    st2.edges = st.edges ∧ st2.edge_type_ids = st.edge_type_ids := by
  rw [undirectedCheckStep] at h
  by_cases hc : (!p.directed && !p.edge_list_is_correct) = true
  · rw [if_pos hc] at h
    cases hcmp : compare src dst with
    | lt => rw [hcmp] at h; cases h; exact ⟨rfl, rfl⟩
    | eq => rw [hcmp] at h; cases h; exact ⟨rfl, rfl⟩
    | gt =>
      rw [hcmp] at h
      by_cases hnone : (reverseLookup b st src dst et).isNone = true
      · rw [if_pos hnone] at h; cases h
      · rw [if_neg hnone] at h; cases h; exact ⟨rfl, rfl⟩
  · rw [if_neg hc] at h
    cases h
    exact ⟨rfl, rfl⟩

theorem reverseLookup_congr (b : ℕ) (st st2 : BuildState) (src dst : ℕ) (et : Option ℕ)
    (he : st2.edges = st.edges) (ht : st2.edge_type_ids = st.edge_type_ids) :
    reverseLookup b st2 src dst et = reverseLookup b st src dst et := by
  rw [reverseLookup, reverseLookup, he, ht]

theorem updateNode_edges (st : BuildState) (node : ℕ) (selfloop : Bool) :
    (updateNode st node selfloop).1.edges = st.edges := by
  rw [updateNode]
  split
  · rfl
  · split
    · split
      · rfl
      · rfl
    · split
      · rfl
      · rfl

theorem updateEndpoints_edges (st : BuildState) (src dst : ℕ) (selfloop : Bool) :
    (updateEndpoints st src dst selfloop).edges = st.edges := by
  rw [updateEndpoints]
  by_cases hb : (updateNode st src selfloop).2
  · simp [hb, updateNode_edges]
  · simp [hb, updateNode_edges]

theorem build_guard_iff (st : BuildState) (src dst : ℕ) (et : Option ℕ) :
    (!((st.last_src != src || st.first) || (st.last_dst != dst || st.first)
      || (st.last_edge_type != et || st.first))) = true
      ↔ BuildDup st src dst et := by
  simp only [BuildDup, Bool.not_eq_true', Bool.or_eq_false_iff, bne_eq_false_iff_eq]
  constructor
  · rintro ⟨⟨⟨h1, h2⟩, h3, _⟩, h4, _⟩
    exact ⟨h2, h1, h3, h4⟩
  · rintro ⟨h1, h2, h3, h4⟩
    exact ⟨⟨⟨h2, h1⟩, h3, h1⟩, h4, h1⟩

theorem build_edges_step_error (p : BuildParams)
    (pre post : List (Except String Quadruple)) (q : Quadruple) (st : BuildState)
    (e : Failure)
    (hpre : buildEdgesGo p (get_node_bits p.nodes_number) (initBuildState p) pre
      = Except.ok st)
    (hstep : buildStep p (get_node_bits p.nodes_number) st q = Except.error e) :
    build_edges p (pre ++ Except.ok q :: post) = Except.error e := by
  simp only [build_edges, buildEdgesGo_append, hpre, buildEdgesGo, hstep,
    Bind.bind, Except.bind]

theorem build_edges_step_skip (p : BuildParams)
    (pre post : List (Except String Quadruple)) (q : Quadruple) (st : BuildState)
    (hpre : buildEdgesGo p (get_node_bits p.nodes_number) (initBuildState p) pre
      = Except.ok st)
    (hstep : buildStep p (get_node_bits p.nodes_number) st q = Except.ok st) :
    build_edges p (pre ++ Except.ok q :: post) = build_edges p (pre ++ post) := by
  simp only [build_edges, buildEdgesGo_append, hpre, buildEdgesGo, hstep,
    Bind.bind, Except.bind]

theorem buildStep_reverse_missing (p : BuildParams) (hdir : p.directed = false)
    (helc : p.edge_list_is_correct = false) (b : ℕ) (st : BuildState)
    (src dst : ℕ) (et : Option ℕ) (w : Option ℚ) (st2 : BuildState)
    (hgt : dst < src) (hnd : ¬ BuildDup st src dst et)
    (hw : weightStep (pushEdgeTypeStep st et) w = Except.ok st2)
    (hlk : reverseLookup b (pushEdgeTypeStep st et) src dst et = none) :
    buildStep p b st (src, dst, et, w)
      = Except.error (Failure.err undirectedMissingReverseMsg) := by
  have hguard : (!((st.last_src != src || st.first) || (st.last_dst != dst || st.first)
      || (st.last_edge_type != et || st.first))) = false := by
    by_contra hx
    exact hnd ((build_guard_iff st src dst et).mp (Bool.of_not_eq_false hx))
  have hlk2 : reverseLookup b st2 src dst et = none := by
    obtain ⟨he, ht⟩ := weightStep_ok_pres _ _ _ hw
    rw [reverseLookup_congr b (pushEdgeTypeStep st et) st2 src dst et he ht]
    exact hlk
  have hchk : undirectedCheckStep p b st2 src dst et
      = Except.error (Failure.err undirectedMissingReverseMsg) := by
    rw [undirectedCheckStep, hdir, helc]
    simp only [Bool.not_false, Bool.and_self, if_true]
    rw [Nat.compare_eq_gt.mpr hgt]
    rw [hlk2]
    rfl
  simp only [buildStep, hguard, Bool.false_eq_true, if_false, hw, hchk,
    Bind.bind, Except.bind]

/-! ## Claim C2 -/

/-- Claim C2: constructing an undirected graph (`directed = false`) from a
directed edge list without the `edge_list_is_correct` assertion, every
ingested backward edge `(src, dst, t)` with `src > dst` looks up the
previously stored `(dst, src, t)`; if the lookup comes back empty the build
fails right there with the Inconsistent error, and if at the end of the
stream the forward and backward counters differ the build fails with the
Inconsistent completeness error — in both cases no graph is produced. -/
theorem C2_undirected_consistency (p : BuildParams)
    (hdir : p.directed = false) (helc : p.edge_list_is_correct = false) :
    (∀ (pre post : List (Except String Quadruple)) (src dst : ℕ) (et : Option ℕ)
      (w : Option ℚ) (st st2 : BuildState),
      buildEdgesGo p (get_node_bits p.nodes_number) (initBuildState p) pre
        = Except.ok st →
      dst < src →
      ¬ BuildDup st src dst et →
      weightStep (pushEdgeTypeStep st et) w = Except.ok st2 →
      reverseLookup (get_node_bits p.nodes_number) (pushEdgeTypeStep st et) src dst et
        = none →
      build_edges p (pre ++ Except.ok (src, dst, et, w) :: post)
        = Except.error (Failure.err undirectedMissingReverseMsg))
    ∧ (∀ (l : List (Except String Quadruple)) (st : BuildState),
      buildEdgesGo p (get_node_bits p.nodes_number) (initBuildState p) l
        = Except.ok st →
      st.forward_undirected_edges_counter ≠ st.backward_undirected_edges_counter →
      build_edges p l = Except.error (Failure.err undirectedIncompleteMsg)) := by
  constructor
  · intro pre post src dst et w st st2 hpre hgt hnd hw hlk
    exact build_edges_step_error p pre post (src, dst, et, w) st _ hpre
      (buildStep_reverse_missing p hdir helc _ st src dst et w st2 hgt hnd hw hlk)
  · intro l st hgo hne
    have hb : (st.forward_undirected_edges_counter
        != st.backward_undirected_edges_counter) = true := by
      simpa [bne_iff_ne] using hne
    simp only [build_edges, hgo, Bind.bind, Except.bind, buildFinalize, hb, if_true]

/-- Witness for C2: the lone backward edge `(1, 0)` fails its reverse
lookup immediately, and the lone forward edge `(0, 1)` leaves the counters
unbalanced at the end of the stream. -/
theorem C2_witness :
    build_edges undirParams [Except.ok (1, 0, none, none)]
      = Except.error (Failure.err undirectedMissingReverseMsg)
    ∧ build_edges undirParams [Except.ok (0, 1, none, none)]
      = Except.error (Failure.err undirectedIncompleteMsg) :=
  ⟨(C2_undirected_consistency undirParams rfl rfl).1 [] [] 1 0 none none
      (initBuildState undirParams) (pushEdgeTypeStep (initBuildState undirParams) none)
      rfl (by decide) (fun hd => by cases hd.1) rfl rfl,
    (C2_undirected_consistency undirParams rfl rfl).2 [Except.ok (0, 1, none, none)] _
      rfl (by decide)⟩

/-! ## Claim C3 -/

theorem pushEdgeTypeStep_edges (st : BuildState) (et : Option ℕ) :
    (pushEdgeTypeStep st et).edges = st.edges := by
  rw [pushEdgeTypeStep]
  split
  · rfl
  · rfl

theorem buildStepTail_edges (st : BuildState) (src dst : ℕ) (et : Option ℕ) (b : ℕ)
    (ds dd sl : Bool) :
    (buildStepTail st src dst et b ds dd sl).edges
      = st.edges ++ [encode_edge src dst b] := by
  rw [buildStepTail]
  cases sl <;> cases ds <;> cases dd <;>
    simp [updateEndpoints_edges]

theorem buildStep_skip_of_dup (p : BuildParams) (b : ℕ) (st : BuildState)
    (src dst : ℕ) (et : Option ℕ) (w : Option ℚ) (hdup : BuildDup st src dst et) :
    (p.ignore_duplicated_edges = true →
      buildStep p b st (src, dst, et, w) = Except.ok st)
    ∧ (p.ignore_duplicated_edges = false →
      buildStep p b st (src, dst, et, w) = Except.error (Failure.err duplicateEdgeMsg)) := by
  have hguard := (build_guard_iff st src dst et).mpr hdup
  constructor
  · intro hig
    simp only [buildStep, hguard, if_true, hig]
  · intro hig
    simp only [buildStep, hguard, if_true, hig, Bool.false_eq_true, if_false]

theorem buildStep_keeps_distinct_type (p : BuildParams) (b : ℕ) (st : BuildState)
    (src dst : ℕ) (et et2 : Option ℕ) (w : Option ℚ) (st2 st3 : BuildState)
    (hdup : BuildDup st src dst et) (hne : et2 ≠ et)
    (hw : weightStep (pushEdgeTypeStep st et2) w = Except.ok st2)
    (hchk : undirectedCheckStep p b st2 src dst et2 = Except.ok st3) :
    (buildStep p b st (src, dst, et2, w)).map (fun s => s.edges)
      = Except.ok (st.edges ++ [encode_edge src dst b]) := by
  have hguard : (!((st.last_src != src || st.first) || (st.last_dst != dst || st.first)
      || (st.last_edge_type != et2 || st.first))) = false := by
    by_contra hx
    have hdup2 := (build_guard_iff st src dst et2).mp (Bool.of_not_eq_false hx)
    exact hne ((hdup.2.2.2.symm.trans hdup2.2.2.2).symm)
  have hedges : st3.edges = st.edges := by
    have h2 := weightStep_ok_pres _ _ _ hw
    have h3 := undirectedCheckStep_ok_pres _ _ _ _ _ _ _ hchk
    rw [h3.1, h2.1, pushEdgeTypeStep_edges]
  simp only [buildStep, hguard, Bool.false_eq_true, if_false, hw, hchk,
    Bind.bind, Except.bind, Except.map, buildStepTail_edges, hedges]

/-- Claim C3: during construction, an edge whose `(src, dst, edge_type)`
triple equals the previous surviving edge's triple is silently skipped (the
build equals the build without it) when `ignore_duplicated_edges` is set,
and otherwise fails the whole construction with the Duplicate error; an edge
agreeing with the previous one on the endpoints but differing in edge type
is not treated as a duplicate: its key is pushed (once the weight and
undirected-consistency arms pass). -/
theorem C3_duplicate_policy (p : BuildParams) :
    (∀ (pre post : List (Except String Quadruple)) (src dst : ℕ) (et : Option ℕ)
      (w : Option ℚ) (st : BuildState),
      buildEdgesGo p (get_node_bits p.nodes_number) (initBuildState p) pre
        = Except.ok st →
      BuildDup st src dst et →
      ((p.ignore_duplicated_edges = true →
        build_edges p (pre ++ Except.ok (src, dst, et, w) :: post)
          = build_edges p (pre ++ post))
      ∧ (p.ignore_duplicated_edges = false →
        build_edges p (pre ++ Except.ok (src, dst, et, w) :: post)
          = Except.error (Failure.err duplicateEdgeMsg))))
    ∧ (∀ (st : BuildState) (src dst : ℕ) (et et2 : Option ℕ) (w : Option ℚ)
      (st2 st3 : BuildState),
      BuildDup st src dst et → et2 ≠ et →
      weightStep (pushEdgeTypeStep st et2) w = Except.ok st2 →
      undirectedCheckStep p (get_node_bits p.nodes_number) st2 src dst et2
        = Except.ok st3 →
      (buildStep p (get_node_bits p.nodes_number) st (src, dst, et2, w)).map
          (fun s => s.edges)
        = Except.ok (st.edges ++ [encode_edge src dst (get_node_bits p.nodes_number)])) := by
  constructor
  · intro pre post src dst et w st hpre hdup
    constructor
    · intro hig
      exact build_edges_step_skip p pre post (src, dst, et, w) st hpre
        ((buildStep_skip_of_dup p _ st src dst et w hdup).1 hig)
    · intro hig
      exact build_edges_step_error p pre post (src, dst, et, w) st _ hpre
        ((buildStep_skip_of_dup p _ st src dst et w hdup).2 hig)
  · intro st src dst et et2 w st2 st3 hdup hne hw hchk
    exact buildStep_keeps_distinct_type p _ st src dst et et2 w st2 st3 hdup hne hw hchk

/-- Witness for C3: the duplicated untyped edge `(0, 1)` is dropped under
the ignoring policy and rejected otherwise, while a second `(0, 1)` edge of
a different edge type is pushed. -/
theorem C3_witness :
    build_edges dupIgnoreParams
        [Except.ok (0, 1, none, none), Except.ok (0, 1, none, none)]
      = build_edges dupIgnoreParams [Except.ok (0, 1, none, none)]
    ∧ build_edges dupErrorParams
        [Except.ok (0, 1, none, none), Except.ok (0, 1, none, none)]
      = Except.error (Failure.err duplicateEdgeMsg)
    ∧ (buildStep typedDupParams (get_node_bits typedDupParams.nodes_number) c3State
        (0, 1, some 1, none)).map (fun s => s.edges)
      = Except.ok (c3State.edges
          ++ [encode_edge 0 1 (get_node_bits typedDupParams.nodes_number)]) :=
  ⟨((C3_duplicate_policy dupIgnoreParams).1 [Except.ok (0, 1, none, none)] []
      0 1 none none _ rfl ⟨rfl, rfl, rfl, rfl⟩).1 rfl,
    ((C3_duplicate_policy dupErrorParams).1 [Except.ok (0, 1, none, none)] []
      0 1 none none _ rfl ⟨rfl, rfl, rfl, rfl⟩).2 rfl,
    (C3_duplicate_policy typedDupParams).2 c3State 0 1 (some 0) (some 1) none _ _
      ⟨rfl, rfl, rfl, rfl⟩ (by decide) rfl rfl⟩

/-! ## Claim C5 -/

theorem mem_compute_edge_ids_all (g : Graph) (eid src dst x : ℕ)
    (hx : x ∈ g.compute_edge_ids_vector eid src dst true) :
    x < g.get_edges_number ∧ g.pairOf x = (src, dst) := by
  rw [Graph.compute_edge_ids_vector, if_pos rfl] at hx
  obtain ⟨hr, hp⟩ := List.mem_filter.mp hx
  simp only [Bool.and_eq_true, beq_iff_eq] at hp
  exact ⟨List.mem_range.mp hr, Prod.ext hp.1 hp.2⟩

theorem mem_compute_edge_ids_one (g : Graph) (eid src dst x : ℕ)
    (hx : x ∈ g.compute_edge_ids_vector eid src dst false) : x = eid := by
  rw [Graph.compute_edge_ids_vector] at hx
  simp at hx
  exact hx

theorem get_unchecked_edge_id_spec (g : Graph) (src dst : ℕ) (et : Option ℕ) :
    g.get_unchecked_edge_id src dst et = g.get_edges_number
    ∨ (g.get_unchecked_edge_id src dst et < g.get_edges_number
      ∧ g.pairOf (g.get_unchecked_edge_id src dst et) = (src, dst)) := by
  rw [Graph.get_unchecked_edge_id]
  cases hfind : (List.range g.get_edges_number).find?
      (fun i => g.get_edge_triple i == (src, dst, et)) with
  | none => exact Or.inl rfl
  | some r =>
    refine Or.inr ⟨?_, ?_⟩
    · simpa using List.mem_range.mp (List.mem_of_find?_eq_some hfind)
    · have hp := List.find?_some hfind
      have ht : g.get_edge_triple r = (src, dst, et) := beq_iff_eq.mp hp
      have h1 : g.sources.getD r 0 = src := congrArg Prod.fst ht
      have h2 : g.destinations.getD r 0 = dst := congrArg (fun t => t.2.1) ht
      simp only [Option.getD_some, Graph.pairOf, h1, h2]

theorem connectedCondition_true_not_mem (tree : Finset ℕ) (etis : Option (Finset ℕ))
    (eid src dst : ℕ) (et : Option ℕ)
    (h : connectedCondition tree etis eid src dst et = Except.ok true) : eid ∉ tree := by
  intro hmem
  simp only [connectedCondition] at h
  rw [if_pos hmem] at h
  cases h

theorem companions_not_mem_tree (g : Graph) (tree : Finset ℕ) (include_all : Bool)
    (eid : ℕ) (heid : eid < g.get_edges_number) (heidnot : eid ∉ tree)
    (htree_lt : ∀ e ∈ tree, e < g.get_edges_number)
    (hclosed : ∀ e ∈ tree, ∀ e2, e2 < g.get_edges_number →
      (g.pairOf e2 = g.pairOf e
        ∨ (g.is_directed = false ∧ g.pairOf e2 = Prod.swap (g.pairOf e))) → e2 ∈ tree)
    (x : ℕ)
    (hx : x ∈ (g.compute_edge_ids_vector eid (g.get_edge_triple eid).1
        (g.get_edge_triple eid).2.1 include_all).toFinset
      ∪ (if !g.is_directed then
          (g.compute_edge_ids_vector
            (g.get_unchecked_edge_id (g.get_edge_triple eid).2.1 (g.get_edge_triple eid).1
              (g.get_edge_triple eid).2.2)
            (g.get_edge_triple eid).2.1 (g.get_edge_triple eid).1 include_all).toFinset
        else ∅)) :
    x ∉ tree := by
  intro hxt
  have hpair1 : (g.get_edge_triple eid).1 = (g.pairOf eid).1 := rfl
  have hpair2 : (g.get_edge_triple eid).2.1 = (g.pairOf eid).2 := rfl
  rcases Finset.mem_union.mp hx with hfwd | hbwd
  · rw [List.mem_toFinset] at hfwd
    cases include_all with
    | true =>
      obtain ⟨_, hxp⟩ := mem_compute_edge_ids_all g eid _ _ x hfwd
      have : g.pairOf x = g.pairOf eid := by
        rw [hxp, hpair1, hpair2]
      exact heidnot (hclosed x hxt eid heid (Or.inl this.symm))
    | false =>
      have := mem_compute_edge_ids_one g eid _ _ x hfwd
      exact heidnot (this ▸ hxt)
  · cases hd : g.is_directed with
    | true =>
      rw [hd] at hbwd
      simp at hbwd
    | false =>
      rw [hd] at hbwd
      simp only [Bool.not_false, if_true, List.mem_toFinset] at hbwd
      have hrel : g.pairOf x = ((g.pairOf eid).2, (g.pairOf eid).1) → x ∈ tree → eid ∈ tree := by
        intro hxp hxt2
        refine hclosed x hxt2 eid heid (Or.inr ⟨hd, ?_⟩)
        rw [hxp]
        rfl
      cases include_all with
      | true =>
        obtain ⟨_, hxp⟩ := mem_compute_edge_ids_all g _ _ _ x hbwd
        rw [hpair1, hpair2] at hxp
        exact heidnot (hrel hxp hxt)
      | false =>
        have hxeq := mem_compute_edge_ids_one g _ _ _ x hbwd
        subst hxeq
        rcases get_unchecked_edge_id_spec g (g.get_edge_triple eid).2.1
            (g.get_edge_triple eid).1 (g.get_edge_triple eid).2.2 with hE | ⟨_, hp⟩
        · rw [hE] at hxt
          exact absurd (htree_lt _ hxt) (lt_irrefl _)
        · rw [hpair1, hpair2] at hp
          exact heidnot (hrel hp hxt)

theorem holdoutLoop_tree_disjoint (g : Graph) (tree : Finset ℕ)
    (etis : Option (Finset ℕ)) (include_all : Bool) (target : ℕ)
    (htree_lt : ∀ e ∈ tree, e < g.get_edges_number)
    (hclosed : ∀ e ∈ tree, ∀ e2, e2 < g.get_edges_number →
      (g.pairOf e2 = g.pairOf e
        ∨ (g.is_directed = false ∧ g.pairOf e2 = Prod.swap (g.pairOf e))) → e2 ∈ tree) :
    ∀ (l : List ℕ) (V : Finset ℕ), (∀ e ∈ l, e < g.get_edges_number) →
      (∀ e ∈ V, e ∉ tree) →
      ∀ V2, holdoutLoop g include_all (connectedCondition tree etis) target l V
        = Except.ok V2 → ∀ e ∈ V2, e ∉ tree := by
  intro l
  induction l with
  | nil =>
    intro V _ hV V2 hrun
    rw [holdoutLoop] at hrun
    cases hrun
    exact hV
  | cons eid rest ih =>
    intro V hl hV V2 hrun
    have heid : eid < g.get_edges_number := hl eid (List.mem_cons_self _ _)
    have hrest : ∀ e ∈ rest, e < g.get_edges_number :=
      fun e he => hl e (List.mem_cons_of_mem _ he)
    rw [holdoutLoop] at hrun
    by_cases hskip : (!g.is_directed
        && decide ((g.get_edge_triple eid).2.1 < (g.get_edge_triple eid).1)) = true
    · rw [if_pos hskip] at hrun
      exact ih V hrest hV V2 hrun
    · rw [if_neg hskip] at hrun
      cases hc : connectedCondition tree etis eid (g.get_edge_triple eid).1
          (g.get_edge_triple eid).2.1 (g.get_edge_triple eid).2.2 with
      | error e2 =>
        rw [hc] at hrun
        simp only [Bind.bind, Except.bind] at hrun
        cases hrun
      | ok c =>
        rw [hc] at hrun
        simp only [Bind.bind, Except.bind] at hrun
        cases c with
        | false =>
          simp only [Bool.false_eq_true, if_false] at hrun
          by_cases hbreak : target ≤ V.card
          · rw [if_pos hbreak] at hrun
            cases hrun
            exact hV
          · rw [if_neg hbreak] at hrun
            exact ih V hrest hV V2 hrun
        | true =>
          have heidnot : eid ∉ tree := connectedCondition_true_not_mem tree etis eid _ _ _ hc
          simp only [if_true] at hrun
          set Vnew := V ∪ (g.compute_edge_ids_vector eid (g.get_edge_triple eid).1
              (g.get_edge_triple eid).2.1 include_all).toFinset
            ∪ (if !g.is_directed then
                (g.compute_edge_ids_vector
                  (g.get_unchecked_edge_id (g.get_edge_triple eid).2.1
                    (g.get_edge_triple eid).1 (g.get_edge_triple eid).2.2)
                  (g.get_edge_triple eid).2.1 (g.get_edge_triple eid).1
                  include_all).toFinset
              else ∅) with hVnew
          have hVnewDisj : ∀ e ∈ Vnew, e ∉ tree := by
            intro e he
            rw [hVnew, Finset.union_assoc] at he
            rcases Finset.mem_union.mp he with hein | hein
            · exact hV e hein
            · exact companions_not_mem_tree g tree include_all eid heid heidnot htree_lt
                hclosed e hein
          by_cases hbreak : target ≤ Vnew.card
          · rw [if_pos hbreak] at hrun
            exact (Except.ok.inj hrun) ▸ hVnewDisj
          · rw [if_neg hbreak] at hrun
            exact ih Vnew hrest hVnewDisj V2 hrun

theorem holdout_ok_elim (g : Graph) (edge_indices : List ℕ) (vn : ℕ)
    (include_all : Bool) (cond : ℕ → ℕ → ℕ → Option ℕ → Res Bool)
    (train valid : List ℕ)
    (h : g.holdout edge_indices vn include_all cond = Except.ok (train, valid)) :
    ∃ V : Finset ℕ, holdoutLoop g include_all cond vn edge_indices ∅ = Except.ok V
      ∧ train = (List.range g.get_edges_number).filter (fun e => !(decide (e ∈ V)))
      ∧ valid = (List.range g.get_edges_number).filter (fun e => decide (e ∈ V)) := by
  rw [Graph.holdout] at h
  cases hloop : holdoutLoop g include_all cond vn edge_indices ∅ with
  | error e =>
    rw [hloop] at h
    simp only [Bind.bind, Except.bind] at h
    cases h
  | ok V =>
    rw [hloop] at h
    simp only [Bind.bind, Except.bind] at h
    by_cases hlt : V.card < vn
    · rw [if_pos hlt] at h
      cases h
    · rw [if_neg hlt] at h
      cases h
      exact ⟨V, rfl, rfl, rfl⟩

/-- Claim C5: for every successful `connected_holdout` call, no edge id of
the computed random spanning forest is placed in the returned validation
graph, and every forest edge remains in the returned training graph.  The
spanning forest (absent from the tree) is modelled from the spec as a set of
edge ids closed under the companion expansion the holdout applies: the ids
sharing an endpoint pair and, for undirected graphs, the ids of the reversed
pair. -/
theorem C5_connected_holdout_tree (g : Graph) (tree : Finset ℕ)
    (edge_type_ids : Option (Finset ℕ)) (include_all : Bool)
    (edge_indices : List ℕ) (ten vn : ℕ) (train valid : List ℕ)
    (htree_lt : ∀ e ∈ tree, e < g.get_edges_number)
    (hclosed : ∀ e ∈ tree, ∀ e2, e2 < g.get_edges_number →
      (g.pairOf e2 = g.pairOf e
        ∨ (g.is_directed = false ∧ g.pairOf e2 = Prod.swap (g.pairOf e))) → e2 ∈ tree)
    (hindices : ∀ e ∈ edge_indices, e < g.get_edges_number)
    (hrun : g.connected_holdout_ids tree edge_type_ids include_all edge_indices ten vn
      = Except.ok (train, valid)) :
    (∀ e ∈ tree, e ∉ valid) ∧ ∀ e ∈ tree, e ∈ train := by
  rw [Graph.connected_holdout_ids] at hrun
  by_cases hpre : ten < tree.card * (if g.is_directed = true then 1 else 2)
  · rw [if_pos hpre] at hrun
    cases hrun
  · rw [if_neg hpre] at hrun
    obtain ⟨V, hloop, htrain, hvalid⟩ :=
      holdout_ok_elim g edge_indices vn include_all _ train valid hrun
    have hdisj : ∀ e ∈ V, e ∉ tree :=
      holdoutLoop_tree_disjoint g tree edge_type_ids include_all vn htree_lt hclosed
        edge_indices ∅ hindices (fun e he => absurd he (Finset.not_mem_empty e)) V hloop
    constructor
    · intro e he hmem
      rw [hvalid] at hmem
      exact hdisj e (by simpa using (List.mem_filter.mp hmem).2) he
    · intro e he
      rw [htrain]
      refine List.mem_filter.mpr ⟨List.mem_range.mpr (htree_lt e he), ?_⟩
      simp only [Bool.not_eq_true', decide_eq_false_iff_not]
      intro hmem
      exact hdisj e hmem he

/-! ## Claim C1 -/

theorem except_bind_ok {α β : Type} (x : Res α) (f : α → Res β) (b : β)
    (h : (x >>= f) = Except.ok b) : ∃ a, x = Except.ok a ∧ f a = Except.ok b := by
  cases x with
  | error e => simp [Bind.bind, Except.bind] at h
  | ok a => exact ⟨a, rfl, by simpa [Bind.bind, Except.bind] using h⟩

theorem decodeG_encodeG (g : Graph) (s d : ℕ) (hd : d < g.get_nodes_number) :
    g.decodeG (g.encodeG s d) = (s, d) :=
  decode_encode s d g.node_bits
    (lt_of_lt_of_le hd (nodes_le_two_pow_node_bits g.get_nodes_number))

theorem encodeG_lt_bound (g : Graph) (s d : ℕ) (hs : s < g.get_nodes_number)
    (hd : d < g.get_nodes_number) :
    g.encodeG s d < g.get_nodes_number <<< g.node_bits := by
  have hdp : d < 2 ^ g.node_bits :=
    lt_of_lt_of_le hd (nodes_le_two_pow_node_bits g.get_nodes_number)
  have he : g.encodeG s d = s * 2 ^ g.node_bits + d := encode_edge_eq_add s d _ hdp
  rw [he, Nat.shiftLeft_eq]
  have h2 : (s + 1) * 2 ^ g.node_bits ≤ g.get_nodes_number * 2 ^ g.node_bits :=
    Nat.mul_le_mul_right _ (Nat.succ_le_of_lt hs)
  calc s * 2 ^ g.node_bits + d < s * 2 ^ g.node_bits + 2 ^ g.node_bits := by omega
    _ = (s + 1) * 2 ^ g.node_bits := by ring
    _ ≤ g.get_nodes_number * 2 ^ g.node_bits := h2

theorem length_filter_mem_range (V : Finset ℕ) (B : ℕ) (h : ∀ x ∈ V, x < B) :
    ((List.range B).filter (fun k => decide (k ∈ V))).length = V.card := by
  have hnd : ((List.range B).filter (fun k => decide (k ∈ V))).Nodup :=
    (List.nodup_range B).filter _
  have hts : ((List.range B).filter (fun k => decide (k ∈ V))).toFinset = V := by
    ext x
    simp only [List.mem_toFinset, List.mem_filter, List.mem_range, decide_eq_true_eq]
    exact ⟨fun hx => hx.2, fun hx => ⟨h x hx, hx⟩⟩
  conv_rhs => rw [← hts]
  exact (List.toFinset_card_of_nodup hnd).symm

theorem flatMap_length_le {α β : Type} (f : α → List β) (c : ℕ)
    (h : ∀ a, (f a).length ≤ c) : ∀ l : List α, (l.flatMap f).length ≤ c * l.length := by
  intro l
  induction l with
  | nil => simp
  | cons a t ih =>
    rw [List.flatMap_cons, List.length_append, List.length_cons]
    have ha := h a
    calc (f a).length + (t.flatMap f).length ≤ c + c * t.length := by omega
      _ = c * (t.length + 1) := by ring

theorem card_union_flatMap_le (V : Finset ℕ) (l : List ℕ) (f : ℕ → List ℕ) (c n : ℕ)
    (hf : ∀ a, (f a).length ≤ c) (hl : l.length ≤ n) :
    (V ∪ (l.flatMap f).toFinset).card ≤ V.card + c * n := by
  have h1 := Finset.card_union_le V (l.flatMap f).toFinset
  have h2 := List.toFinset_card_le (l.flatMap f)
  have h3 := flatMap_length_le f c hf l
  have h4 : c * l.length ≤ c * n := Nat.mul_le_mul_left c hl
  omega

theorem candidate_keys_length_le (g : Graph) (sn : Option (Finset ℕ)) (raw : ℕ) :
    (g.candidate_keys sn raw).length ≤ 2 := by
  simp only [Graph.candidate_keys]
  split
  · simp
  · split
    · split
      · simp
      · simp
    · simp

theorem candidate_keys_length_le_one (g : Graph) (sn : Option (Finset ℕ)) (raw : ℕ)
    (hdir : g.is_directed = true) : (g.candidate_keys sn raw).length ≤ 1 := by
  simp only [Graph.candidate_keys, hdir, Bool.not_true, Bool.false_and, if_false]
  split
  · simp
  · split
    · simp
    · simp

theorem candidate_keys_spec (g : Graph) (sn : Option (Finset ℕ)) (raw key : ℕ)
    (hN : 0 < g.get_nodes_number)
    (hsym : g.is_directed = false → ∀ s < g.get_nodes_number,
      ∀ d < g.get_nodes_number, g.has_edge s d = g.has_edge d s)
    (hk : key ∈ g.candidate_keys sn raw) :
    ∃ s d, s < g.get_nodes_number ∧ d < g.get_nodes_number
      ∧ key = g.encodeG s d
      ∧ (g.has_selfloops = true ∨ s ≠ d)
      ∧ g.has_edge s d = false
      ∧ ∀ ids, sn = some ids → s ∈ ids ∨ d ∈ ids := by
  simp only [Graph.candidate_keys] at hk
  set src := (g.decodeG raw).1 % g.get_nodes_number with hsrcdef
  set dst := (g.decodeG raw).2 % g.get_nodes_number with hdstdef
  have hsrc : src < g.get_nodes_number := Nat.mod_lt _ hN
  have hdst : dst < g.get_nodes_number := Nat.mod_lt _ hN
  split at hk
  · simp at hk
  next hseed =>
    split at hk
    next hguard =>
      rw [Bool.and_eq_true] at hguard
      obtain ⟨hpol, hedge⟩ := hguard
      rw [Bool.not_eq_true'] at hedge
      have hpol' : g.has_selfloops = true ∨ src ≠ dst := by
        rw [Bool.or_eq_true] at hpol
        rcases hpol with h | h
        · exact Or.inl h
        · exact Or.inr (bne_iff_ne.mp h)
      have hseed' : ∀ ids, sn = some ids → src ∈ ids ∨ dst ∈ ids := by
        intro ids hids
        subst hids
        simp only [Bool.and_eq_true, Bool.not_eq_true', decide_eq_false_iff_not] at hseed
        by_contra hcon
        push_neg at hcon
        exact hseed ⟨hcon.1, hcon.2⟩
      split at hk
      next hmir =>
        rw [Bool.and_eq_true] at hmir
        obtain ⟨hb1, hb2⟩ := hmir
        rw [Bool.not_eq_true'] at hb1
        have hundir : g.is_directed = false := hb1
        have hne : src ≠ dst := bne_iff_ne.mp hb2
        rcases List.mem_cons.mp hk with hkey | hk2
        · exact ⟨src, dst, hsrc, hdst, hkey, hpol', hedge, hseed'⟩
        · have hkey : key = g.encodeG dst src := by simpa using hk2
          refine ⟨dst, src, hdst, hsrc, hkey, Or.inr (Ne.symm hne), ?_, ?_⟩
          · rw [hsym hundir dst hdst src hsrc]
            exact hedge
          · intro ids hids
            exact (hseed' ids hids).symm
      next hmir =>
        have hkey : key = g.encodeG src dst := by simpa using hk
        exact ⟨src, dst, hsrc, hdst, hkey, hpol', hedge, hseed'⟩
    next hguard =>
      simp at hk

theorem candidate_keys_mirror (g : Graph) (sn : Option (Finset ℕ)) (raw key : ℕ)
    (hundir : g.is_directed = false) (hN : 0 < g.get_nodes_number)
    (hk : key ∈ g.candidate_keys sn raw) :
    g.encodeG (g.decodeG key).2 (g.decodeG key).1 ∈ g.candidate_keys sn raw := by
  simp only [Graph.candidate_keys] at hk ⊢
  set src := (g.decodeG raw).1 % g.get_nodes_number with hsrcdef
  set dst := (g.decodeG raw).2 % g.get_nodes_number with hdstdef
  have hsrc : src < g.get_nodes_number := Nat.mod_lt _ hN
  have hdst : dst < g.get_nodes_number := Nat.mod_lt _ hN
  split at hk
  · simp at hk
  next hseed =>
    rw [if_neg hseed]
    split at hk
    next hguard =>
      rw [if_pos hguard]
      split at hk
      next hmir =>
        rw [if_pos hmir]
        rcases List.mem_cons.mp hk with hkey | hk2
        · rw [hkey, decodeG_encodeG g src dst hdst]
          simp
        · have hkey : key = g.encodeG dst src := by simpa using hk2
          rw [hkey, decodeG_encodeG g dst src hsrc]
          simp
      next hmir =>
        rw [if_neg hmir]
        have hkey : key = g.encodeG src dst := by simpa using hk
        have hsd : src = dst := by
          rw [hundir] at hmir
          simpa using hmir
        rw [hkey, decodeG_encodeG g src dst hdst, hsd]
        simp
    next hguard =>
      simp at hk

theorem sampleLoop_mem (g : Graph) (k : ℕ) (sn : Option (Finset ℕ))
    (oracle : ℕ → List ℕ) (P : ℕ → Prop)
    (hP : ∀ raw key, key ∈ g.candidate_keys sn raw → P key) :
    ∀ fuel i V, (∀ key ∈ V, P key) →
      ∀ V2, sampleLoop g k sn oracle fuel i V = some V2 → ∀ key ∈ V2, P key := by
  intro fuel
  induction fuel with
  | zero =>
    intro i V hV V2 h
    rw [sampleLoop] at h
    split at h
    · cases h
      exact hV
    · cases h
  | succ fuel ih =>
    intro i V hV V2 h
    rw [sampleLoop] at h
    split at h
    · cases h
      exact hV
    · refine ih (i + 1) _ ?_ V2 h
      intro key hkey
      rcases Finset.mem_union.mp hkey with hk1 | hk2
      · exact hV key hk1
      · rw [List.mem_toFinset] at hk2
        obtain ⟨raw, _, hmem⟩ := List.mem_flatMap.mp hk2
        exact hP raw key hmem

theorem sampleLoop_card_directed (g : Graph) (k : ℕ) (sn : Option (Finset ℕ))
    (oracle : ℕ → List ℕ) (hdir : g.is_directed = true) :
    ∀ fuel i V, V.card ≤ k →
      ∀ V2, sampleLoop g k sn oracle fuel i V = some V2 → V2.card = k := by
  intro fuel
  induction fuel with
  | zero =>
    intro i V hV V2 h
    rw [sampleLoop] at h
    split at h
    next hc =>
      cases h
      omega
    next => cases h
  | succ fuel ih =>
    intro i V hV V2 h
    rw [sampleLoop] at h
    split at h
    next hc =>
      cases h
      omega
    next hc =>
      have hb := card_union_flatMap_le V
        ((oracle i).take (min (chunk_size k) (k - V.card)))
        (g.candidate_keys sn) 1 (k - V.card)
        (fun raw => candidate_keys_length_le_one g sn raw hdir)
        (le_trans (List.length_take_le _ _) (min_le_right _ _))
      have hcard : (V ∪ (((oracle i).take (min (chunk_size k) (k - V.card))).flatMap
          (g.candidate_keys sn)).toFinset).card ≤ k := le_trans hb (by omega)
      exact ih (i + 1) _ hcard V2 h

theorem sampleLoop_card_undirected (g : Graph) (k : ℕ) (sn : Option (Finset ℕ))
    (oracle : ℕ → List ℕ) (hundir : g.is_directed = false) :
    ∀ fuel i V, V.card ≤ k + 1 →
      ∀ V2, sampleLoop g k sn oracle fuel i V = some V2 →
        k ≤ V2.card ∧ V2.card ≤ k + 1 := by
  intro fuel
  induction fuel with
  | zero =>
    intro i V hV V2 h
    rw [sampleLoop] at h
    split at h
    next hc =>
      cases h
      exact ⟨hc, hV⟩
    next => cases h
  | succ fuel ih =>
    intro i V hV V2 h
    rw [sampleLoop] at h
    split at h
    next hc =>
      cases h
      exact ⟨hc, hV⟩
    next hc =>
      rw [hundir] at h
      simp only [Bool.false_eq_true, if_false] at h
      have hb := card_union_flatMap_le V
        ((oracle i).take (min (chunk_size k) ((k - V.card + 1) / 2)))
        (g.candidate_keys sn) 2 ((k - V.card + 1) / 2)
        (fun raw => candidate_keys_length_le g sn raw)
        (le_trans (List.length_take_le _ _) (min_le_right _ _))
      have hlt : V.card < k := Nat.lt_of_not_le hc
      have hcard : (V ∪ (((oracle i).take (min (chunk_size k)
          ((k - V.card + 1) / 2))).flatMap
          (g.candidate_keys sn)).toFinset).card ≤ k + 1 := le_trans hb (by omega)
      exact ih (i + 1) _ hcard V2 h

theorem sampleLoop_mirror (g : Graph) (k : ℕ) (sn : Option (Finset ℕ))
    (oracle : ℕ → List ℕ) (hundir : g.is_directed = false)
    (hN : 0 < g.get_nodes_number) :
    ∀ fuel i V,
      (∀ key ∈ V, g.encodeG (g.decodeG key).2 (g.decodeG key).1 ∈ V) →
      ∀ V2, sampleLoop g k sn oracle fuel i V = some V2 →
        ∀ key ∈ V2, g.encodeG (g.decodeG key).2 (g.decodeG key).1 ∈ V2 := by
  intro fuel
  induction fuel with
  | zero =>
    intro i V hV V2 h
    rw [sampleLoop] at h
    split at h
    · cases h
      exact hV
    · cases h
  | succ fuel ih =>
    intro i V hV V2 h
    rw [sampleLoop] at h
    split at h
    · cases h
      exact hV
    · refine ih (i + 1) _ ?_ V2 h
      intro key hkey
      rcases Finset.mem_union.mp hkey with hk1 | hk2
      · exact Finset.mem_union_left _ (hV key hk1)
      · rw [List.mem_toFinset] at hk2
        obtain ⟨raw, hraw, hmem⟩ := List.mem_flatMap.mp hk2
        refine Finset.mem_union_right _ ?_
        rw [List.mem_toFinset]
        exact List.mem_flatMap.mpr
          ⟨raw, hraw, candidate_keys_mirror g sn raw key hundir hN hmem⟩

theorem sample_negatives_core (g : Graph) (k : ℕ) (sn : Option (Finset ℕ))
    (oracle : ℕ → List ℕ) (fuel : ℕ) (res : List (ℕ × ℕ)) (hk0 : k ≠ 0)
    (hsym : g.is_directed = false → ∀ s < g.get_nodes_number,
      ∀ d < g.get_nodes_number, g.has_edge s d = g.has_edge d s)
    (hrest : (if k > g.get_nodes_number * (g.get_nodes_number - 1)
        + (if g.has_selfloops = true then g.get_nodes_number else 0)
        - g.unique_edges_number then
        Except.error (Failure.err
          "The requested negatives number is more than the number of negative edges that exist in the graph.")
      else
        match sampleLoop g k sn oracle fuel 0 ∅ with
        | none => Except.error (Failure.err sampleFuelMsg)
        | some bitmap =>
          Except.ok (((List.range (g.get_nodes_number <<< g.node_bits)).filter
            (fun key => decide (key ∈ bitmap))).map (fun key => g.decodeG key)))
      = Except.ok res) :
    (∀ p ∈ res, p.1 < g.get_nodes_number ∧ p.2 < g.get_nodes_number
      ∧ g.has_edge p.1 p.2 = false ∧ (g.has_selfloops = true ∨ p.1 ≠ p.2))
    ∧ (g.is_directed = true → res.length = k)
    ∧ (g.is_directed = false → k ≤ res.length ∧ res.length ≤ k + 1)
    ∧ (∀ ids, sn = some ids → ∀ p ∈ res, p.1 ∈ ids ∨ p.2 ∈ ids)
    ∧ (g.is_directed = false → ∀ p ∈ res, (p.2, p.1) ∈ res) := by
  by_cases hmax : k > g.get_nodes_number * (g.get_nodes_number - 1)
      + (if g.has_selfloops = true then g.get_nodes_number else 0)
      - g.unique_edges_number
  · rw [if_pos hmax] at hrest
    cases hrest
  rw [if_neg hmax] at hrest
  cases hloop : sampleLoop g k sn oracle fuel 0 ∅ with
  | none =>
    rw [hloop] at hrest
    cases hrest
  | some bitmap =>
    rw [hloop] at hrest
    have hres : res = ((List.range (g.get_nodes_number <<< g.node_bits)).filter
        (fun key => decide (key ∈ bitmap))).map (fun key => g.decodeG key) :=
      (Except.ok.inj hrest).symm
    have hN : 0 < g.get_nodes_number := by
      by_contra hc
      push_neg at hc
      have h0 : g.get_nodes_number = 0 := Nat.le_zero.mp hc
      rw [h0] at hmax
      simp at hmax
      omega
    have hgood : ∀ key ∈ bitmap, ∃ s d, s < g.get_nodes_number
        ∧ d < g.get_nodes_number ∧ key = g.encodeG s d
        ∧ (g.has_selfloops = true ∨ s ≠ d) ∧ g.has_edge s d = false
        ∧ ∀ ids, sn = some ids → s ∈ ids ∨ d ∈ ids :=
      sampleLoop_mem g k sn oracle _
        (fun raw key hkk => candidate_keys_spec g sn raw key hN hsym hkk)
        fuel 0 ∅ (fun key hkey => absurd hkey (Finset.not_mem_empty key)) bitmap hloop
    have hmem : ∀ p, p ∈ res ↔ ∃ key, (key < g.get_nodes_number <<< g.node_bits
        ∧ key ∈ bitmap) ∧ g.decodeG key = p := by
      intro p
      rw [hres]
      simp [List.mem_map, List.mem_filter, List.mem_range]
    have hlen : res.length = bitmap.card := by
      rw [hres, List.length_map]
      refine length_filter_mem_range bitmap _ ?_
      intro x hx
      obtain ⟨s, d, hs, hd, hkey, _, _, _⟩ := hgood x hx
      rw [hkey]
      exact encodeG_lt_bound g s d hs hd
    have hpair : ∀ p ∈ res, p.1 < g.get_nodes_number ∧ p.2 < g.get_nodes_number
        ∧ g.has_edge p.1 p.2 = false ∧ (g.has_selfloops = true ∨ p.1 ≠ p.2)
        ∧ ∀ ids, sn = some ids → p.1 ∈ ids ∨ p.2 ∈ ids := by
      intro p hp
      obtain ⟨key, ⟨hkB, hkmem⟩, hkdec⟩ := (hmem p).mp hp
      obtain ⟨s, d, hs, hd, hkey, hpol, hedge, hseed⟩ := hgood key hkmem
      rw [hkey, decodeG_encodeG g s d hd] at hkdec
      subst hkdec
      exact ⟨hs, hd, hedge, hpol, hseed⟩
    refine ⟨fun p hp => ⟨(hpair p hp).1, (hpair p hp).2.1, (hpair p hp).2.2.1,
      (hpair p hp).2.2.2.1⟩, ?_, ?_, ?_, ?_⟩
    · intro hdir
      rw [hlen]
      exact sampleLoop_card_directed g k sn oracle hdir fuel 0 ∅ (by simp) bitmap hloop
    · intro hundir
      rw [hlen]
      exact sampleLoop_card_undirected g k sn oracle hundir fuel 0 ∅ (by simp)
        bitmap hloop
    · intro ids hids p hp
      exact (hpair p hp).2.2.2.2 ids hids
    · intro hundir p hp
      have hmirror : ∀ key ∈ bitmap,
          g.encodeG (g.decodeG key).2 (g.decodeG key).1 ∈ bitmap :=
        sampleLoop_mirror g k sn oracle hundir hN fuel 0 ∅
          (fun key hkey => absurd hkey (Finset.not_mem_empty key)) bitmap hloop
      obtain ⟨key, ⟨hkB, hkmem⟩, hkdec⟩ := (hmem p).mp hp
      obtain ⟨s, d, hs, hd, hkey, _, _, _⟩ := hgood key hkmem
      rw [hkey, decodeG_encodeG g s d hd] at hkdec
      subst hkdec
      have h2 := hmirror key hkmem
      rw [hkey, decodeG_encodeG g s d hd] at h2
      exact (hmem (d, s)).mpr
        ⟨g.encodeG d s, ⟨encodeG_lt_bound g d s hd hs, h2⟩, decodeG_encodeG g d s hs⟩

/-- Claim C1 counterexample: on the undirected three-node graph storing only
the logical edge `a-b`, a request for exactly one negative with a stream
whose first draw decodes to the missing pair `(0, 2)` succeeds and returns
two directed negative rows, because the mirroring inserts both `(0, 2)` and
`(2, 0)` into the bitmap in the same chunk; the returned edge count is not
the requested `k = 1`. -/
theorem C1_counterexample :
    ∃ res : List (ℕ × ℕ),
      undirPairGraph.sample_negatives 42 1 none (fun _ => [2]) 1 = Except.ok res
      ∧ res.length ≠ 1 :=
  ⟨[(0, 2), (2, 0)], by rfl, by decide⟩

/-- Claim C1 (amended): for every graph whose stored edge relation is
symmetric when undirected, and every successful
`sample_negatives(random_state, k, seed_graph, verbose)` run (any random
stream, any fuel): every returned pair has in-range endpoints, is absent
from the stored edge set and respects the selfloop policy; a directed parent
returns exactly `k` edges, while an undirected parent returns between `k`
and `k + 1` directed rows (the mirroring can overshoot by one); when a seed
graph is given its node-id set resolves successfully and every returned pair
touches it; and for an undirected parent the returned rows are closed under
reversal. -/
theorem C1_sample_negatives_spec (g : Graph) (random_state k : ℕ)
    (seed_graph : Option Graph) (oracle : ℕ → List ℕ) (fuel : ℕ)
    (res : List (ℕ × ℕ))
    (hsym : g.is_directed = false → ∀ s < g.get_nodes_number,
      ∀ d < g.get_nodes_number, g.has_edge s d = g.has_edge d s)
    (hrun : g.sample_negatives random_state k seed_graph oracle fuel = Except.ok res) :
    (∀ p ∈ res, p.1 < g.get_nodes_number ∧ p.2 < g.get_nodes_number
      ∧ g.has_edge p.1 p.2 = false ∧ (g.has_selfloops = true ∨ p.1 ≠ p.2))
    ∧ (g.is_directed = true → res.length = k)
    ∧ (g.is_directed = false → k ≤ res.length ∧ res.length ≤ k + 1)
    ∧ (∀ sg, seed_graph = some sg → ∃ ids, seedNodeIds g sg = Except.ok ids
        ∧ ∀ p ∈ res, p.1 ∈ ids ∨ p.2 ∈ ids)
    ∧ (g.is_directed = false → ∀ p ∈ res, (p.2, p.1) ∈ res) := by
  by_cases hk0 : k = 0
  · rw [Graph.sample_negatives, if_pos hk0] at hrun
    cases hrun
  cases seed_graph with
  | none =>
    simp only [Graph.sample_negatives, Bind.bind, Except.bind] at hrun
    rw [if_neg hk0] at hrun
    have hcore := sample_negatives_core g k none oracle fuel res hk0 hsym hrun
    exact ⟨hcore.1, hcore.2.1, hcore.2.2.1,
      fun sg h => Option.noConfusion h, hcore.2.2.2.2⟩
  | some sg =>
    simp only [Graph.sample_negatives] at hrun
    rw [if_neg hk0] at hrun
    cases hov : g.overlaps sg with
    | error e =>
      rw [hov] at hrun
      simp only [Bind.bind, Except.bind] at hrun
      cases hrun
    | ok ov =>
      rw [hov] at hrun
      simp only [Bind.bind, Except.bind] at hrun
      cases ov with
      | false => simp at hrun
      | true =>
        simp only [Bool.not_true, Bool.false_eq_true, if_false] at hrun
        cases hids : seedNodeIds g sg with
        | error e =>
          rw [hids] at hrun
          cases hrun
        | ok ids =>
          rw [hids] at hrun
          have hcore := sample_negatives_core g k (some ids) oracle fuel res hk0
            hsym hrun
          refine ⟨hcore.1, hcore.2.1, hcore.2.2.1, ?_, hcore.2.2.2.2⟩
          intro sg2 hsg2
          obtain rfl : sg = sg2 := by cases hsg2; rfl
          exact ⟨ids, hids, hcore.2.2.2.1 ids rfl⟩

/-- Witness for the amended C1 on the undirected three-node graph: a request
for two negatives with the same stream returns exactly the mirrored pair
`(0, 2)`, `(2, 0)`, and every conclusion holds on it. -/
theorem C1_witness :
    (∀ p ∈ ([(0, 2), (2, 0)] : List (ℕ × ℕ)),
        p.1 < undirPairGraph.get_nodes_number ∧ p.2 < undirPairGraph.get_nodes_number
        ∧ undirPairGraph.has_edge p.1 p.2 = false
        ∧ (undirPairGraph.has_selfloops = true ∨ p.1 ≠ p.2))
    ∧ (undirPairGraph.is_directed = true
        → ([(0, 2), (2, 0)] : List (ℕ × ℕ)).length = 2)
    ∧ (undirPairGraph.is_directed = false
        → 2 ≤ ([(0, 2), (2, 0)] : List (ℕ × ℕ)).length
          ∧ ([(0, 2), (2, 0)] : List (ℕ × ℕ)).length ≤ 2 + 1)
    ∧ (∀ sg, (none : Option Graph) = some sg
        → ∃ ids, seedNodeIds undirPairGraph sg = Except.ok ids
          ∧ ∀ p ∈ ([(0, 2), (2, 0)] : List (ℕ × ℕ)), p.1 ∈ ids ∨ p.2 ∈ ids)
    ∧ (undirPairGraph.is_directed = false →
        ∀ p ∈ ([(0, 2), (2, 0)] : List (ℕ × ℕ)),
          (p.2, p.1) ∈ ([(0, 2), (2, 0)] : List (ℕ × ℕ))) :=
  C1_sample_negatives_spec undirPairGraph 42 2 none (fun _ => [2]) 1 [(0, 2), (2, 0)]
    (by decide) (by rfl)

/-- Witness for C5 on the undirected triangle: the forest holds the logical
edges `a-b` and `a-c` (ids 0, 2 and 1, 4), the shuffled order starts with
edge 3 = `(1, 2)`, and the validation target is two directed edges. -/
theorem C5_witness :
    (∀ e ∈ ({0, 1, 2, 4} : Finset ℕ), e ∉ ([3, 5] : List ℕ))
    ∧ ∀ e ∈ ({0, 1, 2, 4} : Finset ℕ), e ∈ ([0, 1, 2, 4] : List ℕ) :=
  C5_connected_holdout_tree triangleGraph {0, 1, 2, 4} none false [3, 0, 1, 2, 4, 5] 8 2
    [0, 1, 2, 4] [3, 5] (by decide) (by decide) (by decide) (by rfl)

end Ensmallen
